import Mathlib

/-!
Verification of the lucanthrope storage core: a shallow embedding of the
buffered binary stream layer (IndexOutput / IndexInput), the in-memory block
file (RAMDirectory::RAMFile with its RAMFileIndexOutput / RAMFileIndexInput
adapters) and the RAMDirectory name table with its create / commit / open /
delete / lock protocol.

Machine integers are modelled as Nat with explicit reductions: a byte stored
in a block is read back modulo 256 (8-bit char cells), uint32 / uint64
arithmetic applies % 2^32 / % 2^64 exactly where the C++ performs a shift or
cast in that width.  Fatal assertions (assert(...) in the source, compiled
with assertions enabled, as the repository's own tests are) are modelled as
an Option / Except failure outcome distinct from thrown Exception objects.
-/

namespace Lucanthrope

/-! ## Byte-level codec (IndexOutput.cpp / IndexInput.cpp)

IndexOutput::writeVarint32 / writeVarint64 / writeInt32 / writeInt64 each
build a small byte buffer and hand it to write().  The functions below are
those buffer constructions.  IndexInput::readVarint32 / readVarint64 /
readInt32 / readInt64 consume successive bytes of the stream; the list
versions below consume successive elements of a byte list. -/

/-- IndexIOBase::kMaxVarintLength32. -/
def kMaxVarintLength32 : Nat := 5

/-- IndexIOBase::kMaxVarintLength64. -/
def kMaxVarintLength64 : Nat := 10

/-- The byte buffer built by IndexOutput::writeVarint32 (IndexOutput.cpp,
lines 93-119).  Each stored byte is a uint8, hence % 256.  Note: the
`num < (1 << 28)` branch of the source writes only three bytes, starting at
`(num >> 7) | B` — it has no `num | B` byte. -/
def writeVarint32Buf (num : Nat) : List Nat :=
  if num < 1 <<< 7 then
    [num % 256]
  else if num < 1 <<< 14 then
    [(num ||| 128) % 256, (num >>> 7) % 256]
  else if num < 1 <<< 21 then
    [(num ||| 128) % 256, ((num >>> 7) ||| 128) % 256, (num >>> 14) % 256]
  else if num < 1 <<< 28 then
    [((num >>> 7) ||| 128) % 256, ((num >>> 14) ||| 128) % 256, (num >>> 21) % 256]
  else
    [(num ||| 128) % 256, ((num >>> 7) ||| 128) % 256, ((num >>> 14) ||| 128) % 256,
      ((num >>> 21) ||| 128) % 256, (num >>> 28) % 256]

/-- The byte buffer built by IndexOutput::writeVarint64 (IndexOutput.cpp,
lines 121-132): while num >= 128 emit the low 7 bits with the continuation
bit, then the final byte. -/
def writeVarint64Buf (num : Nat) : List Nat :=
  if 128 ≤ num then
    ((num ||| 128) % 256) :: writeVarint64Buf (num >>> 7)
  else
    [num % 256]
termination_by num
decreasing_by
  simp only [Nat.shiftRight_eq_div_pow]
  omega

/-- The byte buffer built by IndexOutput::writeInt32: little-endian, each
byte a char cast of a right shift. -/
def writeInt32Buf (num : Nat) : List Nat :=
  [num % 256, (num >>> 8) % 256, (num >>> 16) % 256, (num >>> 24) % 256]

/-- The byte buffer built by IndexOutput::writeInt64: little-endian, 8
bytes. -/
def writeInt64Buf (num : Nat) : List Nat :=
  [num % 256, (num >>> 8) % 256, (num >>> 16) % 256, (num >>> 24) % 256,
    (num >>> 32) % 256, (num >>> 40) % 256, (num >>> 48) % 256, (num >>> 56) % 256]

/-- The decode loop of IndexInput::readVarint32 (IndexInput.cpp, lines
89-107) applied to a byte list: while fewer than kMaxVarintLength32 bytes
were decoded and bytes remain, OR in the low 7 bits of the next byte
(shifted in uint32, hence % 2^32) and stop when the continuation bit is
clear; if the loop ends without a terminating byte the source throws
IndexCorruption (here: none). -/
def readVarint32Loop (ret decoded : Nat) : List Nat → Option (Nat × List Nat)
  | [] => none
  | b :: rest =>
    if decoded < kMaxVarintLength32 then
      let v := ret ||| (((b &&& 127) <<< (7 * decoded)) % 2 ^ 32)
      if b &&& 128 = 0 then some (v, rest) else readVarint32Loop v (decoded + 1) rest
    else none

/-- IndexInput::readVarint32 as a byte-list transformer. -/
def readVarint32List (bytes : List Nat) : Option (Nat × List Nat) :=
  readVarint32Loop 0 0 bytes

/-- The decode loop of IndexInput::readVarint64 (IndexInput.cpp, lines
68-86), identical to the 32-bit loop up to the byte limit and the shift
width. -/
def readVarint64Loop (ret decoded : Nat) : List Nat → Option (Nat × List Nat)
  | [] => none
  | b :: rest =>
    if decoded < kMaxVarintLength64 then
      let v := ret ||| (((b &&& 127) <<< (7 * decoded)) % 2 ^ 64)
      if b &&& 128 = 0 then some (v, rest) else readVarint64Loop v (decoded + 1) rest
    else none

/-- IndexInput::readVarint64 as a byte-list transformer. -/
def readVarint64List (bytes : List Nat) : Option (Nat × List Nat) :=
  readVarint64Loop 0 0 bytes

/-- IndexInput::readInt32 as a byte-list transformer: 4 bytes assembled
little-endian, IndexCorruption (none) when fewer than 4 remain. -/
def readInt32List : List Nat → Option (Nat × List Nat)
  | b0 :: b1 :: b2 :: b3 :: rest =>
    some (b0 ||| b1 <<< 8 ||| b2 <<< 16 ||| b3 <<< 24, rest)
  | _ => none

/-- IndexInput::readInt64 as a byte-list transformer: 8 bytes assembled
little-endian. -/
def readInt64List : List Nat → Option (Nat × List Nat)
  | b0 :: b1 :: b2 :: b3 :: b4 :: b5 :: b6 :: b7 :: rest =>
    some (b0 ||| b1 <<< 8 ||| b2 <<< 16 ||| b3 <<< 24 ||| b4 <<< 32 ||| b5 <<< 40
        ||| b6 <<< 48 ||| b7 <<< 56, rest)
  | _ => none

/-! ## Block file (RAMDirectory::RAMFile)

A RAMFile is an ordered list of heap blocks of kBlockSize chars plus a
logical length.  A block is a function from in-block offset to cell
contents; a freshly allocated block (new char[kBlockSize]) holds
unspecified memory, supplied here by a garbage source g : Nat → Nat → Nat
(block index ↦ offset ↦ cell) threaded through the allocating operations,
so every theorem is stated for arbitrary garbage.  Reading a cell reduces
it modulo 256 (cells are 8-bit chars). -/

/-- RAMDirectory::RAMFile::kBlockSize. -/
def kBlockSize : Nat := 4096

/-- RAMFile state: the block array and the logical length. -/
structure RAMFile where
  blocks : List (Nat → Nat)
  length : Nat

/-- The file made by the default RAMFile constructor (used only to
initialize RAMDirectory::dummy_file): no blocks, length 0. -/
def dummyRAMFile : RAMFile := { blocks := [], length := 0 }

/-- RAMFile::alloc with garbage source g: append one fresh kBlockSize
block whose initial (unspecified) contents are g applied to the new block's
index. -/
def RAMFile.alloc (g : Nat → Nat → Nat) (f : RAMFile) : RAMFile :=
  { f with blocks := f.blocks ++ [g f.blocks.length] }

/-- Read the cell at offset off of block i.  Cells are 8-bit, hence
% 256.  An out-of-range block index is undefined behaviour in the source
(blocks_[i] past the vector's end); the default here is arbitrary and no
theorem depends on it. -/
def RAMFile.blockAt (f : RAMFile) (i off : Nat) : Nat :=
  (f.blocks.getD i fun _ => 0) off % 256

/-- The byte of the file at logical position off, as the reader addresses
it: block off / kBlockSize, offset off % kBlockSize. -/
def RAMFile.byteAt (f : RAMFile) (off : Nat) : Nat :=
  f.blockAt (off / kBlockSize) (off % kBlockSize)

/-- Store one byte into block i at offset off (a write through the
writer's buffer pointer, which aliases the block). -/
def RAMFile.setByte (f : RAMFile) (i off v : Nat) : RAMFile :=
  { f with
    blocks := f.blocks.set i fun j =>
      if j = off then v else (f.blocks.getD i fun _ => 0) j }

/-- Store a run of bytes into block i starting at offset off (the memcpy
inside IndexOutput::copyToBuffer; the manual ≤ 4 byte fast path of the
source stores the same bytes cell for cell). -/
def RAMFile.storeBytes (f : RAMFile) (i off : Nat) : List Nat → RAMFile
  | [] => f
  | b :: bs => (f.setByte i off b).storeBytes i (off + 1) bs

/-! ## Buffered writer (IndexOutput over RAMFileIndexOutput)

The only IndexOutput implementation in the repository is
RAMFileIndexOutput, whose buffer is always the current block of its
RAMFile: bufStart / bufCur / bufEnd point into blocks_[current_block].
The state below keeps those pointers as offsets into that block
(bufEnd − block start is always kBlockSize once a buffer is attached,
so only the start and cursor offsets are kept). -/

/-- Writer state: the file under construction plus the stream fields of
IndexIOBase / IndexOutput and RAMFileIndexOutput::current_block. -/
structure WState where
  file : RAMFile
  current_block : Nat
  hasBuf : Bool
  startOff : Nat
  curOff : Nat
  pos : Nat

/-- The writer made by RAMFileIndexOutput's constructor: a fresh RAMFile,
no buffer attached yet. -/
def freshWriter : WState :=
  { file := { blocks := [], length := 0 }, current_block := 0, hasBuf := false,
    startOff := 0, curOff := 0, pos := 0 }

/-- IndexOutput::available(): bufEnd − bufCur; with no buffer all three
pointers are null, so 0. -/
def WState.available (w : WState) : Nat :=
  if w.hasBuf then kBlockSize - w.curOff else 0

/-- RAMFileIndexOutput::initInternalBuffer: allocate block 0 and attach
the buffer to it. -/
def WState.initInternalBuffer (g : Nat → Nat → Nat) (w : WState) : WState :=
  { w with file := w.file.alloc g, hasBuf := true, startOff := 0, curOff := 0 }

/-- IndexOutput::copyToBuffer: store the bytes at the cursor and advance
it (size ≤ available() at every call site, per the source's assertion). -/
def WState.copyToBuffer (w : WState) (data : List Nat) : WState :=
  { w with
    file := w.file.storeBytes w.current_block w.curOff data
    curOff := w.curOff + data.length }

/-- RAMFileIndexOutput::writeImpl: push length to the high-water mark of
pos; on a full block advance to the next block, allocating it if it does
not exist yet (bufStart moves to the new block's start); on a partial
block move bufStart up to bufCur. -/
def WState.writeImpl (g : Nat → Nat → Nat) (w : WState) : WState :=
  if w.curOff = kBlockSize then
    { w with
      file :=
        if w.current_block = w.file.blocks.length - 1 then
          RAMFile.alloc g { w.file with length := max w.file.length w.pos }
        else
          { w.file with length := max w.file.length w.pos }
      current_block := w.current_block + 1
      startOff := 0 }
  else
    { w with
      file := { w.file with length := max w.file.length w.pos }
      startOff := w.curOff }

/-- IndexOutput::flushNonEmpty: writeImpl, then bufCur := bufStart. -/
def WState.flushNonEmpty (g : Nat → Nat → Nat) (w : WState) : WState :=
  { w.writeImpl g with curOff := (w.writeImpl g).startOff }

/-- The loop body of IndexOutput::write (IndexOutput.cpp, lines 21-39):
if the data does not fit, attach a buffer if none exists yet, otherwise
copy what fits, flush, and continue with the remainder.  The fuel
parameter only bounds the recursion: every round from a state with a
buffer either finishes, or makes the remaining data strictly shorter, or
is an empty-copy round that leaves a freshly flushed block, so
data.length + 2 rounds always suffice (writeRun below passes exactly
that); on reachable states the fuel-exhausted branch is never taken. -/
def WState.writeLoop (g : Nat → Nat → Nat) : Nat → WState → List Nat → WState
  | 0, w, _ => w
  | fuel + 1, w, data =>
    if w.available < data.length then
      if ¬ w.hasBuf then
        WState.writeLoop g fuel (w.initInternalBuffer g) data
      else
        WState.writeLoop g fuel
          (WState.flushNonEmpty g
            { w.copyToBuffer (data.take w.available) with pos := w.pos + w.available })
          (data.drop w.available)
    else
      { w.copyToBuffer data with pos := w.pos + data.length }

/-- IndexOutput::write. -/
def WState.write (g : Nat → Nat → Nat) (w : WState) (data : List Nat) : WState :=
  WState.writeLoop g (data.length + 2) w data

/-- IndexOutput::writeInt64 on the stream: build the 8-byte buffer and
write it. -/
def WState.writeInt64 (g : Nat → Nat → Nat) (w : WState) (num : Nat) : WState :=
  w.write g (writeInt64Buf num)

/-- IndexOutput::writeInt32 on the stream. -/
def WState.writeInt32 (g : Nat → Nat → Nat) (w : WState) (num : Nat) : WState :=
  w.write g (writeInt32Buf num)

/-- IndexOutput::writeVarint32 on the stream. -/
def WState.writeVarint32 (g : Nat → Nat → Nat) (w : WState) (num : Nat) : WState :=
  w.write g (writeVarint32Buf num)

/-- IndexOutput::writeVarint64 on the stream. -/
def WState.writeVarint64 (g : Nat → Nat → Nat) (w : WState) (num : Nat) : WState :=
  w.write g (writeVarint64Buf num)

/-- IndexOutput::writeString: varint32 length prefix (the size cast to
uint32), then the raw bytes. -/
def WState.writeString (g : Nat → Nat → Nat) (w : WState) (s : List Nat) : WState :=
  (w.writeVarint32 g (s.length % 2 ^ 32)).write g s

/-- RAMFileIndexOutput's destructor: raise the file's length to the
high-water mark of pos ("flush") and hand the file over (finish_writing
commits it to the directory; the committed RAMFile is returned here). -/
def WState.close (w : WState) : RAMFile :=
  { w.file with length := max w.file.length w.pos }

/-- The file obtained by creating a writer, writing data sequentially at
positions [0, data.length) and closing (committing) it. -/
def writeFileOf (g : Nat → Nat → Nat) (data : List Nat) : RAMFile :=
  (freshWriter.write g data).close

/-! ## Buffered reader (IndexInput over RAMFileIndexInput)

The only IndexInput implementation is RAMFileIndexInput: its buffer is
the current block of the RAMFile, bufStart is the block start, bufEnd the
block end (offset kBlockSize), and sentinel marks one past the valid
bytes.  RAMFileIndexInput's fields last_block and last_block_bytes are
assigned once in its constructor from file->length
(RAMFileIndexInput.h, lines 20-35) and never reassigned, and a committed
file's length is immutable while readers exist, so the embedding derives
both from the file instead of storing them. -/

/-- RAMFileIndexInput::last_block as computed by the constructor:
(file->length - 1) / kBlockSize + 1. -/
def RAMFile.last_block (f : RAMFile) : Nat :=
  (f.length - 1) / kBlockSize + 1

/-- RAMFileIndexInput::last_block_bytes as computed by the constructor:
(file->length - 1) % kBlockSize + 1. -/
def RAMFile.last_block_bytes (f : RAMFile) : Nat :=
  (f.length - 1) % kBlockSize + 1

/-- Reader state: the file plus RAMFileIndexInput::current_block and the
IndexInput buffer fields as offsets into the current block. -/
structure RState where
  file : RAMFile
  current_block : Nat
  hasBuf : Bool
  curOff : Nat
  sentinelOff : Nat
  pos : Nat

/-- RAMFileIndexInput's constructor.  It begins with
assert(file->length && "File is empty!"), a fatal check modelled as
none; otherwise the reader starts with no buffer attached. -/
def mkInput (f : RAMFile) : Option RState :=
  if f.length = 0 then none
  else some { file := f, current_block := 0, hasBuf := false, curOff := 0,
              sentinelOff := 0, pos := 0 }

/-- IndexInput::getNumReadableBytes(): sentinel − bufCur. -/
def RState.readable (r : RState) : Nat := r.sentinelOff - r.curOff

/-- IndexInput::hasPendingData(). -/
def RState.hasPendingData (r : RState) : Bool := decide (0 < r.readable)

/-- RAMFileIndexInput::initInternalBuffer: attach the buffer to block 0;
the sentinel covers last_block_bytes bytes when block 0 is the last
block, else the whole block. -/
def RState.initInternalBuffer (r : RState) : RState :=
  { r with
    hasBuf := true
    curOff := 0
    sentinelOff :=
      if r.file.last_block = 0 then r.file.last_block_bytes else kBlockSize }

/-- RAMFileIndexInput::fillImpl: attach the buffer on first use; report
EOF at last_block; otherwise advance one block and re-establish the
sentinel. -/
def RState.fillImpl (r : RState) : Bool × RState :=
  if ¬ r.hasBuf then (true, r.initInternalBuffer)
  else if r.current_block = r.file.last_block then (false, r)
  else
    let cb := r.current_block + 1
    (true, { r with
      current_block := cb
      curOff := 0
      sentinelOff :=
        if cb = r.file.last_block then r.file.last_block_bytes else kBlockSize })

/-- IndexInput::eof(): no pending data and a refill attempt yields
none.  Calling it mutates the stream (the refill), so the updated state
is returned alongside the answer. -/
def RState.eof (r : RState) : Bool × RState :=
  if r.hasPendingData then (false, r)
  else
    let p := r.fillImpl
    (!p.1, p.2)

/-- IndexInput::readByte: throws IndexCorruption (none) at eof, else
returns the byte under the cursor and advances cursor and position. -/
def RState.readByte (r : RState) : Option (Nat × RState) :=
  let p := r.eof
  if p.1 then none
  else
    let r1 := p.2
    some (r1.file.blockAt r1.current_block r1.curOff,
          { r1 with curOff := r1.curOff + 1, pos := r1.pos + 1 })

/-- The loop of IndexInput::read (IndexInput.cpp, lines 22-32): while
fewer than size bytes were copied and not eof, memcpy
min(getNumReadableBytes(), remaining) bytes from the cursor.  The fuel
parameter only bounds the recursion: every round either stops or copies
at least one byte (a successful refill always exposes at least one byte
because last_block_bytes ≥ 1), so size rounds suffice and read below
passes exactly that. -/
def RState.readLoop : Nat → Nat → RState → List Nat × RState
  | 0, _, r => ([], r)
  | fuel + 1, size, r =>
    if size = 0 then ([], r)
    else
      let p := r.eof
      if p.1 then ([], p.2)
      else
        let r1 := p.2
        let n := min r1.readable size
        let bytes := (List.range n).map fun j =>
          r1.file.blockAt r1.current_block (r1.curOff + j)
        let r2 := { r1 with curOff := r1.curOff + n, pos := r1.pos + n }
        let q := RState.readLoop fuel (size - n) r2
        (bytes ++ q.1, q.2)

/-- IndexInput::read: copy up to size bytes, returning the bytes
actually copied (possibly fewer at end of data, never an error). -/
def RState.read (r : RState) (size : Nat) : List Nat × RState :=
  RState.readLoop size size r

/-- IndexInput::readInt32: read 4 bytes, IndexCorruption (none) on a
short read, else assemble little-endian. -/
def RState.readInt32 (r : RState) : Option (Nat × RState) :=
  let q := r.read 4
  if q.1.length < 4 then none
  else
    some (q.1.getD 0 0 ||| q.1.getD 1 0 <<< 8 ||| q.1.getD 2 0 <<< 16 |||
          q.1.getD 3 0 <<< 24, q.2)

/-- IndexInput::readInt64: read 8 bytes, IndexCorruption (none) on a
short read, else assemble little-endian. -/
def RState.readInt64 (r : RState) : Option (Nat × RState) :=
  let q := r.read 8
  if q.1.length < 8 then none
  else
    some (q.1.getD 0 0 ||| q.1.getD 1 0 <<< 8 ||| q.1.getD 2 0 <<< 16 |||
          q.1.getD 3 0 <<< 24 ||| q.1.getD 4 0 <<< 32 ||| q.1.getD 5 0 <<< 40 |||
          q.1.getD 6 0 <<< 48 ||| q.1.getD 7 0 <<< 56, q.2)

/-- The loop of IndexInput::readVarint32 on the stream.  remaining is
kMaxVarintLength32 − bytes_decoded, so the 0 case is exactly the source's
loop guard failing with done still false: IndexCorruption (none); eof
before a terminating byte likewise ends the loop with done false. -/
def RState.readVarint32Loop : Nat → Nat → Nat → RState → Option (Nat × RState)
  | 0, _, _, _ => none
  | remaining + 1, ret, decoded, r =>
    match r.readByte with
    | none => none
    | some (b, r1) =>
      let v := ret ||| (((b &&& 127) <<< (7 * decoded)) % 2 ^ 32)
      if b &&& 128 = 0 then some (v, r1)
      else RState.readVarint32Loop remaining v (decoded + 1) r1

/-- IndexInput::readVarint32 on the stream. -/
def RState.readVarint32 (r : RState) : Option (Nat × RState) :=
  RState.readVarint32Loop kMaxVarintLength32 0 0 r

/-- The loop of IndexInput::readVarint64 on the stream (shift performed
in uint64). -/
def RState.readVarint64Loop : Nat → Nat → Nat → RState → Option (Nat × RState)
  | 0, _, _, _ => none
  | remaining + 1, ret, decoded, r =>
    match r.readByte with
    | none => none
    | some (b, r1) =>
      let v := ret ||| (((b &&& 127) <<< (7 * decoded)) % 2 ^ 64)
      if b &&& 128 = 0 then some (v, r1)
      else RState.readVarint64Loop remaining v (decoded + 1) r1

/-- IndexInput::readVarint64 on the stream. -/
def RState.readVarint64 (r : RState) : Option (Nat × RState) :=
  RState.readVarint64Loop kMaxVarintLength64 0 0 r

/-- The while (size--) buff.push_back(readByte()) loop of
IndexInput::readString; readByte throws (none) at eof. -/
def RState.readBytesN : Nat → RState → Option (List Nat × RState)
  | 0, r => some ([], r)
  | n + 1, r =>
    match r.readByte with
    | none => none
    | some (b, r1) =>
      match RState.readBytesN n r1 with
      | none => none
      | some (bs, r2) => some (b :: bs, r2)

/-- IndexInput::readString: clear the destination, read a varint32
length, then that many raw bytes. -/
def RState.readString (r : RState) : Option (List Nat × RState) :=
  match r.readVarint32 with
  | none => none
  | some (size, r1) => RState.readBytesN size r1

/-- RAMFileIndexInput::seek.  It begins with
assert(seek_pos < file->length && "Seeking past the end of file is not
supported!"), a fatal check modelled as none; otherwise it recomputes
current block and in-block offset, attaches the buffer to that block and
re-establishes the sentinel.  The source does not update pos here. -/
def RState.seek (r : RState) (seek_pos : Nat) : Option RState :=
  if seek_pos < r.file.length then
    let cb := seek_pos / kBlockSize
    some { r with
      current_block := cb
      hasBuf := true
      curOff := seek_pos % kBlockSize
      sentinelOff :=
        if cb = r.file.last_block then r.file.last_block_bytes else kBlockSize }
  else none

/-! ## The spec's example scenario (claim C2)

Create a file, write the maximum u64 as fixed 64-bit, the length-prefixed
string "hello", then varint32 300; close the writer; open the file and
read the three values back, then ask eof(). -/

/-- A concrete garbage source (all-zero fresh blocks) for witnesses. -/
def zeroGarbage : Nat → Nat → Nat := fun _ _ => 0

/-- The bytes of "hello". -/
def helloBytes : List Nat := [104, 101, 108, 108, 111]

/-- The committed file of the example scenario, for an arbitrary garbage
source. -/
def c2File (g : Nat → Nat → Nat) : RAMFile :=
  ((((freshWriter.writeInt64 g (2 ^ 64 - 1)).writeString g helloBytes).writeVarint32
      g 300)).close

/-- The byte sequence the scenario pushes through the stream: the fixed
64-bit maximum, the varint32 length prefix of "hello", the five bytes of
"hello", then varint32 300. -/
def c2Content : List Nat :=
  writeInt64Buf (2 ^ 64 - 1) ++ writeVarint32Buf (helloBytes.length % 2 ^ 32) ++
    helloBytes ++ writeVarint32Buf 300

/-- Open the scenario file and perform readFixed64 (readInt64),
readString, readVarint32, then eof(), collecting the three values and
the eof answer. -/
def c2Run (g : Nat → Nat → Nat) : Option (Nat × List Nat × Nat × Bool) :=
  (mkInput (c2File g)).bind fun r =>
  r.readInt64.bind fun p1 =>
  p1.2.readString.bind fun p2 =>
  p2.2.readVarint32.bind fun p3 =>
  some (p1.1, p2.1, p3.1, p3.2.eof.1)

/-! ## In-memory directory (RAMDirectory.cpp)

The name table maps names to RAMFile pointers; an occupied slot holds
either the shared &dummy_file placeholder (output in progress or lock
held) or a committed RAMFile.  The embedding represents the table as an
association list (the source's unordered_map iterates in unspecified
order; insertion order is one consistent choice) with the pointer
replaced by a tagged entry, committed files living in a heap keyed by an
allocation id so that reference counts and deallocation are observable.
Thrown Exception objects are recoverable: an operation returns
some (result, state-after), where a thrown error is Except.error with the
ExceptionCode and the state the table was left in.  A failed assert
aborts the process: modelled as none. -/

/-- Exception::Code from common/Exception.h. -/
inductive ExceptionCode where
  | FileAlreadyExistsException
  | FileNotFoundException
  | IOErrorException
  | IndexCorruptionException
deriving DecidableEq

/-- A table slot: the shared dummy_file placeholder, or a pointer to a
committed RAMFile (as a heap id). -/
inductive TableEntry where
  | placeholder : TableEntry
  | committed : Nat → TableEntry
deriving DecidableEq

/-- A heap-allocated RAMFile object together with its reference count
(refs_ is an int in the source). -/
structure FileObj where
  file : RAMFile
  refs : Int

/-- RAMDirectory state: the files map, the heap of committed RAMFile
objects, a fresh-id counter, and the (mutable) reference count of the
static dummy_file, 0 at start. -/
structure DirState where
  files : List (String × TableEntry)
  heap : List (Nat × FileObj)
  nextId : Nat
  dummyRefs : Int

/-- A fresh RAMDirectory. -/
def emptyDir : DirState := { files := [], heap := [], nextId := 0, dummyRefs := 0 }

/-- files.find(fname). -/
def findEntry : List (String × TableEntry) → String → Option TableEntry
  | [], _ => none
  | (k, e) :: rest, n => if k = n then some e else findEntry rest n

/-- files.erase(it) for the entry found under the name. -/
def eraseEntry : List (String × TableEntry) → String → List (String × TableEntry)
  | [], _ => []
  | (k, e) :: rest, n => if k = n then rest else (k, e) :: eraseEntry rest n

/-- files[fname] = e for a name already in the map (commit's assignment;
the source asserts the name is present before it). -/
def setEntry : List (String × TableEntry) → String → TableEntry → List (String × TableEntry)
  | [], _, _ => []
  | (k, e) :: rest, n, v => if k = n then (k, v) :: rest else (k, e) :: setEntry rest n v

/-- files[fname] = e for a name not yet in the map (the default-insert
performed by operator[] in createOutput / obtainLock). -/
def insertEntry (t : List (String × TableEntry)) (n : String) (e : TableEntry) :
    List (String × TableEntry) :=
  (n, e) :: t

/-- Heap lookup by allocation id. -/
def findFile : List (Nat × FileObj) → Nat → Option FileObj
  | [], _ => none
  | (k, fo) :: rest, i => if k = i then some fo else findFile rest i

/-- Heap update by allocation id. -/
def setFile : List (Nat × FileObj) → Nat → FileObj → List (Nat × FileObj)
  | [], _, _ => []
  | (k, fo) :: rest, i, v => if k = i then (k, v) :: rest else (k, fo) :: setFile rest i v

/-- Deallocation (delete file) of a heap object. -/
def eraseFile : List (Nat × FileObj) → Nat → List (Nat × FileObj)
  | [], _ => []
  | (k, fo) :: rest, i => if k = i then rest else (k, fo) :: eraseFile rest i

/-- RAMDirectory::createOutput (RAMDirectory.cpp, lines 116-157): throw
FileAlreadyExists if the name is occupied (the table untouched, the check
precedes any mutation); otherwise allocate the RAMFileIndexOutput with
its fresh RAMFile, then reserve the name with the dummy_file
placeholder. -/
def RAMDirectory.createOutput (d : DirState) (fname : String) :
    Option (Except ExceptionCode WState × DirState) :=
  match findEntry d.files fname with
  | some _ => some (.error .FileAlreadyExistsException, d)
  | none => some (.ok freshWriter, { d with files := insertEntry d.files fname .placeholder })

/-- RAMDirectory::commit (lines 35-41), reached from RAMFileIndexOutput's
destructor through RAMFile::finish_writing after the destructor raised
length to pos (WState.close): assert the name still holds the dummy_file
placeholder (else fatal), set the reference count to 1 and install the
file. -/
def RAMDirectory.commit (d : DirState) (fname : String) (w : WState) : Option DirState :=
  match findEntry d.files fname with
  | some .placeholder =>
    some { d with
      files := setEntry d.files fname (.committed d.nextId)
      heap := d.heap ++ [(d.nextId, { file := w.close, refs := 1 })]
      nextId := d.nextId + 1 }
  | _ => none

/-- RAMDirectory::unrefReader (lines 43-51), reached from
RAMFileIndexInput's destructor: decrement the count and deallocate the
file exactly when it reached 0.  (A dangling id would be undefined
behaviour in the source; the identity fall-through is unreachable.) -/
def RAMDirectory.unrefReader (d : DirState) (id : Nat) : DirState :=
  match findFile d.heap id with
  | none => d
  | some fo =>
    let c := fo.refs - 1
    if c = 0 then { d with heap := eraseFile d.heap id }
    else { d with heap := setFile d.heap id { fo with refs := c } }

/-- RAMDirectory::openInput (lines 177-196): throw FileNotFound on an
absent name; assert the entry is not the dummy_file placeholder (fatal
otherwise); construct the RAMFileIndexInput (whose constructor's
assertion rejects an empty file fatally) and only then increment the
reference count. -/
def RAMDirectory.openInput (d : DirState) (fname : String) :
    Option (Except ExceptionCode (RState × Nat) × DirState) :=
  match findEntry d.files fname with
  | none => some (.error .FileNotFoundException, d)
  | some .placeholder => none
  | some (.committed id) =>
    match findFile d.heap id with
    | none => none
    | some fo =>
      match mkInput fo.file with
      | none => none
      | some r =>
        some (.ok (r, id), { d with heap := setFile d.heap id { fo with refs := fo.refs + 1 } })

/-- RAMDirectory::deleteFile (lines 80-103): throw FileNotFound on an
absent name (nothing mutated); assert the entry is not the dummy_file
placeholder (fatal otherwise); remove the table entry, decrement the
count, and deallocate exactly at 0. -/
def RAMDirectory.deleteFile (d : DirState) (fname : String) :
    Option (Except ExceptionCode Unit × DirState) :=
  match findEntry d.files fname with
  | none => some (.error .FileNotFoundException, d)
  | some .placeholder => none
  | some (.committed id) =>
    match findFile d.heap id with
    | none => none
    | some fo =>
      let c := fo.refs - 1
      let files2 := eraseEntry d.files fname
      some (.ok (),
        if c = 0 then { d with files := files2, heap := eraseFile d.heap id }
        else { d with files := files2, heap := setFile d.heap id { fo with refs := c } })

/-- RAMDirectory::fileLength (lines 105-114): throw FileNotFound on an
absent name; otherwise return it->second->length — for a placeholder
slot it->second is &dummy_file, whose length is 0. -/
def RAMDirectory.fileLength (d : DirState) (fname : String) :
    Option (Except ExceptionCode Nat × DirState) :=
  match findEntry d.files fname with
  | none => some (.error .FileNotFoundException, d)
  | some .placeholder => some (.ok dummyRAMFile.length, d)
  | some (.committed id) =>
    match findFile d.heap id with
    | none => none
    | some fo => some (.ok fo.file.length, d)

/-- RAMDirectory::obtainLock (lines 198-213): non-blocking — if the name
is occupied return no handle immediately and leave the table unchanged;
otherwise allocate the RAMDirectoryLockFile (the handle, which holds
the name) and reserve the name with the dummy_file placeholder. -/
def RAMDirectory.obtainLock (d : DirState) (fname : String) : Option String × DirState :=
  match findEntry d.files fname with
  | some _ => (none, d)
  | none => (some fname, { d with files := insertEntry d.files fname .placeholder })

/-- RAMDirectory::releaseLock (lines 53-69), reached from
RAMDirectoryLockFile's destructor: an absent name only logs a warning;
otherwise assert the entry is the dummy_file placeholder (fatal if it is
a committed file) and erase it. -/
def RAMDirectory.releaseLock (d : DirState) (fname : String) : Option DirState :=
  match findEntry d.files fname with
  | none => some d
  | some .placeholder => some { d with files := eraseEntry d.files fname }
  | some (.committed _) => none

/-- The match test of RAMDirectory::deleteSegment:
pair.first.size() >= size && segment == pair.first.substr(0, size). -/
def segMatches (segment name : String) : Bool :=
  decide (segment.length ≤ name.length) &&
    decide (segment.data = name.data.take segment.length)

/-- The loop of RAMDirectory::deleteSegment (lines 223-238) over the
table entries.  A matching entry is asserted to be the dummy_file
placeholder (the assert's condition is pair.second == &dummy_file, so a
matching committed file is fatal: none); an erased match decrements the
dummy_file's reference count, which starts at 0 and only ever decreases,
so the `if (--file->refs_ == 0) delete file` branch never fires.  (The
source erases inside a range-for, which invalidates the loop iterator —
undefined behaviour the list traversal here idealizes away.) -/
def RAMDirectory.deleteSegmentLoop (segment : String) :
    List (String × TableEntry) → Int → Option (List (String × TableEntry) × Int)
  | [], dr => some ([], dr)
  | (k, e) :: rest, dr =>
    if segMatches segment k then
      match e with
      | .placeholder => RAMDirectory.deleteSegmentLoop segment rest (dr - 1)
      | .committed _ => none
    else
      match RAMDirectory.deleteSegmentLoop segment rest dr with
      | none => none
      | some (t, dr2) => some ((k, e) :: t, dr2)

/-- RAMDirectory::deleteSegment. -/
def RAMDirectory.deleteSegment (d : DirState) (segment : String) : Option DirState :=
  match RAMDirectory.deleteSegmentLoop segment d.files d.dummyRefs with
  | none => none
  | some (t, dr) => some { d with files := t, dummyRefs := dr }

/-! ## Invariants used by the stream proofs -/

/-- The sequential-writer invariant: after the bytes of content have been
written through the stream, the writer's buffer is attached, pos and the
block/cursor decomposition equal content.length, the block array ends at
the current block, length never exceeds pos, and every written position
reads back as the corresponding content byte (an 8-bit cell, hence
% 256). -/
def WInv (w : WState) (content : List Nat) : Prop :=
  w.hasBuf = true ∧
  w.pos = content.length ∧
  kBlockSize * w.current_block + w.curOff = content.length ∧
  w.curOff ≤ kBlockSize ∧
  w.file.blocks.length = w.current_block + 1 ∧
  w.file.length ≤ content.length ∧
  ∀ i, i < content.length → w.file.byteAt i = content.getD i 0 % 256

/-- The reader-position invariant: the reader is logically at position p
of file f, either untouched (no buffer yet, p = 0) or with the buffer on
the block containing p and the sentinel at the block end (which is where
every fill and seek below the last data block leaves it). -/
def RPos (r : RState) (f : RAMFile) (p : Nat) : Prop :=
  r.file = f ∧
  ((r.hasBuf = false ∧ r.current_block = 0 ∧ r.curOff = 0 ∧ r.sentinelOff = 0 ∧ p = 0) ∨
   (r.hasBuf = true ∧ kBlockSize * r.current_block + r.curOff = p ∧
    r.curOff ≤ kBlockSize ∧ r.sentinelOff = kBlockSize))

/-- The normalized active-window form: buffer attached, cursor strictly
inside the block, sentinel at the block end. -/
def RAct (r : RState) (f : RAMFile) (p : Nat) : Prop :=
  r.file = f ∧ r.hasBuf = true ∧
  kBlockSize * r.current_block + r.curOff = p ∧
  r.curOff < kBlockSize ∧ r.sentinelOff = kBlockSize

/-! ## List helpers -/

theorem getD_set_self {α : Type} (l : List α) (i : Nat) (a d : α) (h : i < l.length) :
    (l.set i a).getD i d = a := by
  induction l generalizing i with
  | nil => simp at h
  | cons x xs ih =>
    cases i with
    | zero => rfl
    | succ n => simpa using ih n (by simpa using h)

theorem getD_set_ne {α : Type} (l : List α) (i j : Nat) (a d : α) (h : i ≠ j) :
    (l.set i a).getD j d = l.getD j d := by
  induction l generalizing i j with
  | nil => simp
  | cons x xs ih =>
    cases i with
    | zero =>
      cases j with
      | zero => exact absurd rfl h
      | succ m => simp
    | succ n =>
      cases j with
      | zero => simp
      | succ m => simpa using ih n m (by omega)

theorem getD_take {α : Type} (l : List α) (n j : Nat) (d : α) (h : j < n) :
    (l.take n).getD j d = l.getD j d := by
  induction l generalizing n j with
  | nil => simp
  | cons x xs ih =>
    cases n with
    | zero => omega
    | succ m =>
      cases j with
      | zero => rfl
      | succ i => simpa using ih m i (by omega)

theorem drop_eq_range_map {α : Type} (l : List α) (d : α) (p : Nat) (hp : p ≤ l.length) :
    l.drop p = (List.range (l.length - p)).map fun j => l.getD (p + j) d := by
  apply List.ext_getElem (by simp)
  intro i h1 h2
  have hpi : p + i < l.length := by simp at h1; omega
  rw [List.getElem_drop, List.getElem_map, List.getElem_range,
    List.getD_eq_getElem l d hpi]

/-! ## Block-storage lemmas -/

theorem length_setByte (f : RAMFile) (i off v : Nat) :
    (f.setByte i off v).length = f.length := rfl

theorem blocksLength_setByte (f : RAMFile) (i off v : Nat) :
    (f.setByte i off v).blocks.length = f.blocks.length := by
  simp [RAMFile.setByte]

theorem length_storeBytes (data : List Nat) :
    ∀ (f : RAMFile) (i off : Nat), (f.storeBytes i off data).length = f.length := by
  induction data with
  | nil => intro f i off; rfl
  | cons b bs ih => intro f i off; simpa [RAMFile.storeBytes] using ih (f.setByte i off b) i (off + 1)

theorem blocksLength_storeBytes (data : List Nat) :
    ∀ (f : RAMFile) (i off : Nat),
      (f.storeBytes i off data).blocks.length = f.blocks.length := by
  induction data with
  | nil => intro f i off; rfl
  | cons b bs ih =>
    intro f i off
    simpa [RAMFile.storeBytes, blocksLength_setByte] using ih (f.setByte i off b) i (off + 1)

theorem blockAt_setByte_ne (f : RAMFile) (i off v j jo : Nat) (h : j ≠ i) :
    (f.setByte i off v).blockAt j jo = f.blockAt j jo := by
  simp only [RAMFile.blockAt, RAMFile.setByte]
  rw [getD_set_ne _ _ _ _ _ (by omega)]

theorem blockAt_setByte_self (f : RAMFile) (i off v jo : Nat) (h : i < f.blocks.length) :
    (f.setByte i off v).blockAt i jo = if jo = off then v % 256 else f.blockAt i jo := by
  simp only [RAMFile.blockAt, RAMFile.setByte]
  rw [getD_set_self _ _ _ _ h]
  by_cases hj : jo = off <;> simp [hj]

theorem blockAt_storeBytes_ne (data : List Nat) :
    ∀ (f : RAMFile) (i off j jo : Nat), j ≠ i →
      (f.storeBytes i off data).blockAt j jo = f.blockAt j jo := by
  induction data with
  | nil => intro f i off j jo _; rfl
  | cons b bs ih =>
    intro f i off j jo h
    simp only [RAMFile.storeBytes]
    rw [ih _ _ _ _ _ h, blockAt_setByte_ne _ _ _ _ _ _ h]

theorem blockAt_storeBytes (data : List Nat) :
    ∀ (f : RAMFile) (i off jo : Nat), i < f.blocks.length →
      (f.storeBytes i off data).blockAt i jo =
        if off ≤ jo ∧ jo < off + data.length then data.getD (jo - off) 0 % 256
        else f.blockAt i jo := by
  induction data with
  | nil =>
    intro f i off jo _
    simp only [RAMFile.storeBytes, List.length_nil]
    rw [if_neg (by omega)]
  | cons b bs ih =>
    intro f i off jo hi
    simp only [RAMFile.storeBytes]
    rw [ih (f.setByte i off b) i (off + 1) jo (by rw [blocksLength_setByte]; exact hi)]
    by_cases h1 : off + 1 ≤ jo ∧ jo < off + 1 + bs.length
    · rw [if_pos h1, if_pos (by simp; omega)]
      obtain ⟨m, hm⟩ : ∃ m, jo - off = m + 1 := ⟨jo - off - 1, by omega⟩
      rw [hm, List.getD_cons_succ]
      have : jo - (off + 1) = m := by omega
      rw [this]
    · rw [if_neg h1, blockAt_setByte_self _ _ _ _ _ hi]
      by_cases h2 : jo = off
      · rw [if_pos h2, if_pos (by simp; omega)]
        simp [h2]
      · rw [if_neg h2, if_neg (by simp; omega)]

theorem blocksLength_alloc (g : Nat → Nat → Nat) (f : RAMFile) :
    (RAMFile.alloc g f).blocks.length = f.blocks.length + 1 := by
  simp [RAMFile.alloc]

theorem blockAt_alloc (g : Nat → Nat → Nat) (f : RAMFile) (j jo : Nat)
    (h : j < f.blocks.length) :
    (RAMFile.alloc g f).blockAt j jo = f.blockAt j jo := by
  simp only [RAMFile.blockAt, RAMFile.alloc]
  rw [List.getD_append _ _ _ _ h]

theorem byteAt_length_irrelevant (f : RAMFile) (L i : Nat) :
    RAMFile.byteAt { f with length := L } i = f.byteAt i := rfl

/-! ## Writer lemmas: the sequential-write invariant is preserved -/

theorem copy_WInv (w : WState) (content data : List Nat) (h : WInv w content)
    (hfit : w.curOff + data.length ≤ kBlockSize) :
    WInv { w.copyToBuffer data with pos := w.pos + data.length } (content ++ data) := by
  obtain ⟨hbuf, hpos, hdec, hcur, hblocks, hflen, hbytes⟩ := h
  refine ⟨by simp [WState.copyToBuffer, hbuf], by simp [WState.copyToBuffer, hpos], ?_, ?_, ?_, ?_, ?_⟩
  · simp only [WState.copyToBuffer, List.length_append]
    omega
  · simp only [WState.copyToBuffer]
    omega
  · simp only [WState.copyToBuffer, blocksLength_storeBytes]
    exact hblocks
  · simp only [WState.copyToBuffer, length_storeBytes, List.length_append]
    omega
  · intro i hi
    simp only [WState.copyToBuffer, RAMFile.byteAt] at hbytes ⊢
    simp only [List.length_append] at hi
    by_cases hlt : i < content.length
    · rw [List.getD_append _ _ _ _ hlt]
      by_cases hcb : i / kBlockSize = w.current_block
      · rw [hcb, blockAt_storeBytes data w.file w.current_block w.curOff _ (by omega)]
        rw [if_neg (by simp only [kBlockSize] at hdec hcb ⊢; omega)]
        rw [← hcb]
        exact hbytes i hlt
      · rw [blockAt_storeBytes_ne data w.file w.current_block w.curOff _ _ hcb]
        exact hbytes i hlt
    · have hge : content.length ≤ i := by omega
      have hidx : i / kBlockSize = w.current_block ∧
          i % kBlockSize = w.curOff + (i - content.length) := by
        simp only [kBlockSize] at hdec hfit ⊢
        omega
      rw [hidx.1, blockAt_storeBytes data w.file w.current_block w.curOff _ (by omega)]
      rw [if_pos (by omega)]
      rw [List.getD_append_right _ _ _ _ hge]
      have : i % kBlockSize - w.curOff = i - content.length := by omega
      rw [this]

theorem flush_WInv (g : Nat → Nat → Nat) (w : WState) (content : List Nat)
    (h : WInv w content) (hfull : w.curOff = kBlockSize) :
    WInv (w.flushNonEmpty g) content ∧ (w.flushNonEmpty g).curOff = 0 := by
  obtain ⟨hbuf, hpos, hdec, hcur, hblocks, hflen, hbytes⟩ := h
  have hcb : w.current_block = w.file.blocks.length - 1 := by omega
  have hred : w.flushNonEmpty g =
      { w with
        file := RAMFile.alloc g { w.file with length := max w.file.length w.pos }
        current_block := w.current_block + 1
        startOff := 0
        curOff := 0 } := by
    simp only [WState.flushNonEmpty, WState.writeImpl]
    rw [if_pos hfull, if_pos hcb]
  rw [hred]
  refine ⟨⟨hbuf, hpos, ?_, ?_, ?_, ?_, ?_⟩, rfl⟩
  · simp only [kBlockSize] at hdec hfull ⊢
    omega
  · show (0 : Nat) ≤ kBlockSize
    omega
  · simp [blocksLength_alloc, hblocks]
  · simp [RAMFile.alloc]
    omega
  · intro i hi
    simp only [RAMFile.byteAt]
    rw [blockAt_alloc g _ _ _ (by simp only [kBlockSize] at hdec hfull ⊢; omega)]
    exact hbytes i hi

theorem writeLoop_WInv (g : Nat → Nat → Nat) :
    ∀ (fuel : Nat) (data : List Nat) (w : WState) (content : List Nat),
      WInv w content →
      data.length + (if w.curOff = kBlockSize then 1 else 0) < fuel →
      WInv (WState.writeLoop g fuel w data) (content ++ data) := by
  intro fuel
  induction fuel with
  | zero =>
    intro data w content _ hlt
    by_cases hc : w.curOff = kBlockSize <;> simp [hc] at hlt
  | succ n ih =>
    intro data w content hW hlt
    have hbuf := hW.1
    have hcur := hW.2.2.2.1
    have hav : w.available = kBlockSize - w.curOff := by
      simp [WState.available, hbuf]
    by_cases hfits : w.available < data.length
    · have hstep : WState.writeLoop g (n + 1) w data = WState.writeLoop g n
          (WState.flushNonEmpty g
            { w.copyToBuffer (data.take w.available) with pos := w.pos + w.available })
          (data.drop w.available) := by
        simp only [WState.writeLoop]
        rw [if_pos hfits, if_neg (by simp [hbuf])]
      rw [hstep]
      have hlenTake : (data.take w.available).length = w.available := by
        simp only [List.length_take]
        omega
      have hWc := copy_WInv w content (data.take w.available) ⟨hbuf, hW.2⟩
        (by rw [hlenTake]; omega)
      rw [hlenTake] at hWc
      have hcopyFull :
          ({ w.copyToBuffer (data.take w.available) with
              pos := w.pos + w.available } : WState).curOff = kBlockSize := by
        simp only [WState.copyToBuffer]
        rw [hlenTake]
        omega
      have hWf := flush_WInv g _ _ hWc hcopyFull
      have hrec := ih (data.drop w.available) _ _ hWf.1 (by
        rw [hWf.2, List.length_drop]
        rw [if_neg (by simp [kBlockSize])]
        by_cases hc : w.curOff = kBlockSize
        · rw [if_pos hc] at hlt
          have : w.available = 0 := by omega
          omega
        · rw [if_neg hc] at hlt
          have : 1 ≤ w.available := by omega
          omega)
      rwa [List.append_assoc, List.take_append_drop] at hrec
    · have hstep : WState.writeLoop g (n + 1) w data =
          { w.copyToBuffer data with pos := w.pos + data.length } := by
        simp only [WState.writeLoop]
        rw [if_neg hfits]
      rw [hstep]
      exact copy_WInv w content data ⟨hbuf, hW.2⟩ (by omega)

theorem write_WInv (g : Nat → Nat → Nat) (w : WState) (content data : List Nat)
    (h : WInv w content) : WInv (w.write g data) (content ++ data) :=
  writeLoop_WInv g (data.length + 2) data w content h
    (by by_cases hc : w.curOff = kBlockSize <;> simp [hc])

theorem initInternalBuffer_WInv (g : Nat → Nat → Nat) :
    WInv (freshWriter.initInternalBuffer g) [] := by
  refine ⟨rfl, rfl, rfl, by simp [WState.initInternalBuffer, freshWriter, kBlockSize], rfl,
    Nat.le_refl 0, ?_⟩
  intro i hi
  simp at hi

theorem write_fresh_WInv (g : Nat → Nat → Nat) (data : List Nat) (hne : data ≠ []) :
    WInv (freshWriter.write g data) data := by
  have hlen : 0 < data.length := List.length_pos.mpr hne
  have hstep : freshWriter.write g data =
      WState.writeLoop g (data.length + 1) (freshWriter.initInternalBuffer g) data := by
    simp only [WState.write, WState.writeLoop]
    rw [if_pos (show freshWriter.available < data.length by
      simpa [WState.available, freshWriter] using hlen)]
    rw [if_pos (by simp [freshWriter])]
  rw [hstep]
  have := writeLoop_WInv g (data.length + 1) data (freshWriter.initInternalBuffer g) []
    (initInternalBuffer_WInv g)
    (by simp [WState.initInternalBuffer, freshWriter, kBlockSize])
  simpa using this

theorem close_spec (w : WState) (content : List Nat) (h : WInv w content) :
    (w.close).length = content.length ∧
    ∀ i, i < content.length → (w.close).byteAt i = content.getD i 0 % 256 := by
  obtain ⟨_, hpos, _, _, _, hflen, hbytes⟩ := h
  constructor
  · simp only [WState.close]
    omega
  · intro i hi
    simpa only [WState.close, byteAt_length_irrelevant] using hbytes i hi

theorem writeFileOf_spec (g : Nat → Nat → Nat) (data : List Nat) (hne : data ≠ []) :
    (writeFileOf g data).length = data.length ∧
    ∀ i, i < data.length → (writeFileOf g data).byteAt i = data.getD i 0 % 256 :=
  close_spec _ _ (write_fresh_WInv g data hne)

/-! ## Reader lemmas: eof, readByte and read against the position invariant -/

theorem eof_step (r : RState) (f : RAMFile) (p : Nat) (h : RPos r f p) (hp : p < f.length) :
    ∃ r1, r.eof = (false, r1) ∧ RAct r1 f p := by
  obtain ⟨hfile, hcase⟩ := h
  rcases hcase with ⟨hb, hcb, hco, hs, hp0⟩ | ⟨hb, hdec, hco, hs⟩
  · refine ⟨r.initInternalBuffer, ?_, ?_⟩
    · simp [RState.eof, RState.hasPendingData, RState.readable, hco, hs, RState.fillImpl, hb]
    · refine ⟨by simp [RState.initInternalBuffer, hfile], by simp [RState.initInternalBuffer],
        ?_, by simp [RState.initInternalBuffer, kBlockSize], ?_⟩
      · simp only [RState.initInternalBuffer, hcb]
        omega
      · simp [RState.initInternalBuffer, hfile, RAMFile.last_block]
  · by_cases hlt : r.curOff < kBlockSize
    · refine ⟨r, ?_, hfile, hb, hdec, hlt, hs⟩
      have hpend : r.hasPendingData = true := by
        simp only [RState.hasPendingData, RState.readable, hs]
        simp only [decide_eq_true_eq]
        omega
      simp [RState.eof, hpend]
    · have hck : r.curOff = kBlockSize := by omega
      have hpend : r.hasPendingData = false := by
        simp [RState.hasPendingData, RState.readable, hs, hck]
      have hne : ¬ r.current_block = r.file.last_block := by
        rw [hfile]
        simp only [RAMFile.last_block, kBlockSize] at hdec hck ⊢
        omega
      have hne2 : ¬ r.current_block + 1 = r.file.last_block := by
        rw [hfile]
        simp only [RAMFile.last_block, kBlockSize] at hdec hck ⊢
        omega
      refine ⟨{ r with
          current_block := r.current_block + 1
          curOff := 0
          sentinelOff :=
            if r.current_block + 1 = r.file.last_block then r.file.last_block_bytes
            else kBlockSize }, ?_, ?_⟩
      · simp only [RState.eof, hpend, Bool.false_eq_true, if_false, RState.fillImpl, hb,
          not_true, if_neg hne]
        simp
      · refine ⟨hfile, hb, ?_, by show (0 : Nat) < kBlockSize; simp [kBlockSize],
          by simp [hne2]⟩
        show kBlockSize * (r.current_block + 1) + 0 = p
        simp only [kBlockSize] at hdec hck ⊢
        omega

theorem readByte_spec (r : RState) (f : RAMFile) (p : Nat) (h : RPos r f p)
    (hp : p < f.length) :
    ∃ r2, r.readByte = some (f.byteAt p, r2) ∧ RPos r2 f (p + 1) := by
  obtain ⟨r1, he, hact⟩ := eof_step r f p h hp
  obtain ⟨hfile, hb, hdec, hlt, hs⟩ := hact
  refine ⟨{ r1 with curOff := r1.curOff + 1, pos := r1.pos + 1 }, ?_, ?_⟩
  · have hidx : r1.current_block = p / kBlockSize ∧ r1.curOff = p % kBlockSize := by
      simp only [kBlockSize] at hdec hlt ⊢
      omega
    simp only [RState.readByte, he]
    rw [hfile, hidx.1, hidx.2]
    rfl
  · refine ⟨hfile, Or.inr ⟨hb, ?_, ?_, hs⟩⟩
    · show kBlockSize * r1.current_block + (r1.curOff + 1) = p + 1
      omega
    · show r1.curOff + 1 ≤ kBlockSize
      omega

theorem readLoop_spec :
    ∀ (fuel size : Nat) (r : RState) (f : RAMFile) (p : Nat),
      RPos r f p → p + size ≤ f.length → size ≤ fuel →
      (RState.readLoop fuel size r).1 = (List.range size).map (fun j => f.byteAt (p + j)) ∧
      RPos (RState.readLoop fuel size r).2 f (p + size) := by
  intro fuel
  induction fuel with
  | zero =>
    intro size r f p h hle hsz
    have hz : size = 0 := by omega
    subst hz
    exact ⟨by simp [RState.readLoop], by simpa [RState.readLoop] using h⟩
  | succ n ih =>
    intro size r f p h hle hsz
    by_cases hz : size = 0
    · subst hz
      exact ⟨by simp [RState.readLoop], by simpa [RState.readLoop] using h⟩
    · obtain ⟨r1, he, hact⟩ := eof_step r f p h (by omega)
      obtain ⟨hfile, hb, hdec, hlt, hs⟩ := hact
      have hread : r1.readable = kBlockSize - r1.curOff := by
        simp [RState.readable, hs]
      have hn0pos : 1 ≤ min r1.readable size := by
        rw [hread]
        simp only [kBlockSize] at hlt ⊢
        omega
      have hn0size : min r1.readable size ≤ size := Nat.min_le_right _ _
      have hn0le : r1.curOff + min r1.readable size ≤ kBlockSize := by
        rw [hread]
        omega
      have hstep : RState.readLoop (n + 1) size r =
          ((List.range (min r1.readable size)).map
              (fun j => r1.file.blockAt r1.current_block (r1.curOff + j)) ++
            (RState.readLoop n (size - min r1.readable size)
              { r1 with
                curOff := r1.curOff + min r1.readable size
                pos := r1.pos + min r1.readable size }).1,
           (RState.readLoop n (size - min r1.readable size)
              { r1 with
                curOff := r1.curOff + min r1.readable size
                pos := r1.pos + min r1.readable size }).2) := by
        simp only [RState.readLoop, he]
        rw [if_neg hz]
        simp
      rw [hstep]
      have hr2 : RPos { r1 with
          curOff := r1.curOff + min r1.readable size
          pos := r1.pos + min r1.readable size } f (p + min r1.readable size) := by
        refine ⟨hfile, Or.inr ⟨hb, ?_, ?_, hs⟩⟩
        · show kBlockSize * r1.current_block + (r1.curOff + min r1.readable size) =
            p + min r1.readable size
          omega
        · show r1.curOff + min r1.readable size ≤ kBlockSize
          omega
      have hIH := ih (size - min r1.readable size) _ f (p + min r1.readable size) hr2
        (by omega) (by omega)
      have hbytes : (List.range (min r1.readable size)).map
          (fun j => r1.file.blockAt r1.current_block (r1.curOff + j)) =
          (List.range (min r1.readable size)).map (fun j => f.byteAt (p + j)) := by
        apply List.map_congr_left
        intro j hj
        simp only [List.mem_range] at hj
        have hidx : r1.current_block = (p + j) / kBlockSize ∧
            r1.curOff + j = (p + j) % kBlockSize := by
          simp only [kBlockSize] at hdec hn0le ⊢
          omega
        rw [hfile, hidx.1, hidx.2]
        rfl
      constructor
      · rw [hIH.1, hbytes]
        have hsplit : (List.range size).map (fun j => f.byteAt (p + j)) =
            (List.range (min r1.readable size)).map (fun j => f.byteAt (p + j)) ++
            (List.range (size - min r1.readable size)).map
              (fun j => f.byteAt (p + min r1.readable size + j)) := by
          conv_lhs =>
            rw [show size = min r1.readable size + (size - min r1.readable size) by omega]
          rw [List.range_add, List.map_append, List.map_map]
          congr 1
          apply List.map_congr_left
          intro j _
          simp only [Function.comp_apply]
          rw [Nat.add_assoc]
        rw [hsplit]
      · have harith : p + min r1.readable size + (size - min r1.readable size) = p + size := by
          omega
        rw [harith] at hIH
        exact hIH.2

theorem read_spec (r : RState) (f : RAMFile) (p size : Nat) (h : RPos r f p)
    (hle : p + size ≤ f.length) :
    (r.read size).1 = (List.range size).map (fun j => f.byteAt (p + j)) ∧
    RPos (r.read size).2 f (p + size) :=
  readLoop_spec size size r f p h hle (Nat.le_refl size)

/-! ## Bitwise helpers for the codec lemmas -/

theorem lor_two_pow_mul (k a b : Nat) (h : b < 2 ^ k) :
    b ||| 2 ^ k * a = 2 ^ k * a + b := by
  apply Nat.eq_of_testBit_eq
  intro j
  rw [Nat.testBit_lor, Nat.testBit_mul_pow_two_add a h j, Nat.testBit_mul_pow_two]
  by_cases hj : j < k
  · have hge : ¬ j ≥ k := by omega
    simp [hj, hge]
  · have hbit : b.testBit j = false :=
      Nat.testBit_lt_two_pow (lt_of_lt_of_le h (Nat.pow_le_pow_right (by omega) (by omega)))
    have hge : j ≥ k := by omega
    simp [hj, hge, hbit]

theorem and_127_eq_mod (x : Nat) : x &&& 127 = x % 128 := by
  have := Nat.and_pow_two_sub_one_eq_mod x 7
  simpa using this

theorem mod256_and_127 (x : Nat) : x % 256 &&& 127 = x &&& 127 := by
  rw [show x % 256 = x &&& 255 by
    rw [show (255 : Nat) = 2 ^ 8 - 1 from rfl, Nat.and_pow_two_sub_one_eq_mod]]
  rw [Nat.and_assoc]
  rfl

theorem lor128_and_127 (x : Nat) : (x ||| 128) &&& 127 = x &&& 127 := by
  rw [Nat.and_distrib_right]
  rw [show (128 &&& 127 : Nat) = 0 from rfl]
  simp

theorem contByte_and_127 (x : Nat) : ((x ||| 128) % 256) &&& 127 = x % 128 := by
  rw [mod256_and_127, lor128_and_127, and_127_eq_mod]

theorem contByte_and_128 (x : Nat) : ((x ||| 128) % 256) &&& 128 ≠ 0 := by
  have h7 : ((x ||| 128) % 256).testBit 7 = true := by
    rw [show ((x ||| 128) % 256) = ((x ||| 128) % 2 ^ 8) from rfl,
      Nat.testBit_mod_two_pow, Nat.testBit_lor]
    have h128 : Nat.testBit 128 7 = true := rfl
    simp [h128]
  have hand := Nat.and_two_pow ((x ||| 128) % 256) 7
  rw [h7] at hand
  rw [show ((x ||| 128) % 256) &&& 128 = ((x ||| 128) % 256) &&& 2 ^ 7 from rfl, hand]
  simp

theorem small_and_128 (x : Nat) (h : x < 128) : x &&& 128 = 0 := by
  rw [show (128 : Nat) = 2 ^ 7 from rfl, Nat.and_two_pow,
    Nat.testBit_lt_two_pow (show x < 2 ^ 7 from h)]
  rfl

/-! ## Supporting codec lemmas: the parts of the round-trip claim that hold -/

theorem readVarint64Loop_writeVarint64Buf :
    ∀ (v decoded ret : Nat) (rest : List Nat),
      v < 2 ^ (64 - 7 * decoded) → decoded ≤ 9 →
      readVarint64Loop ret decoded (writeVarint64Buf v ++ rest) =
        some (ret ||| v <<< (7 * decoded), rest) := by
  intro v
  induction v using Nat.strong_induction_on with
  | _ v ih =>
    intro decoded ret rest hv hd
    by_cases h128 : 128 ≤ v
    · have hd8 : decoded ≤ 8 := by
        rcases Nat.lt_or_ge decoded 9 with h | h
        · omega
        · have h9 : decoded = 9 := by omega
          rw [h9] at hv
          norm_num at hv
          omega
      rw [writeVarint64Buf, if_pos h128, List.cons_append]
      simp only [readVarint64Loop]
      rw [if_pos (show decoded < kMaxVarintLength64 by simp only [kMaxVarintLength64]; omega)]
      rw [if_neg (contByte_and_128 v)]
      have hv7 : v >>> 7 < 2 ^ (64 - 7 * (decoded + 1)) := by
        rw [Nat.shiftRight_eq_div_pow]
        have hexp : 64 - 7 * (decoded + 1) + 7 = 64 - 7 * decoded := by omega
        rw [Nat.div_lt_iff_lt_mul (by norm_num : 0 < (2 : Nat) ^ 7), ← pow_add, hexp]
        exact hv
      have hdec7 : v >>> 7 < v := by
        rw [Nat.shiftRight_eq_div_pow]
        exact Nat.div_lt_self (by omega) (by norm_num)
      rw [ih (v >>> 7) hdec7 (decoded + 1) _ rest hv7 (by omega)]
      refine congrArg (fun z => some (z, rest)) ?_
      rw [contByte_and_127]
      have hlow : (v % 128) <<< (7 * decoded) % 2 ^ 64 = (v % 128) <<< (7 * decoded) := by
        rw [Nat.shiftLeft_eq]
        apply Nat.mod_eq_of_lt
        have h1 : v % 128 * 2 ^ (7 * decoded) < 2 ^ 7 * 2 ^ (7 * decoded) :=
          (Nat.mul_lt_mul_right (Nat.pos_pow_of_pos _ (by omega))).mpr (by omega)
        rw [← pow_add] at h1
        exact lt_of_lt_of_le h1 (Nat.pow_le_pow_right (by omega) (by omega))
      rw [hlow, Nat.lor_assoc]
      congr 1
      rw [Nat.shiftLeft_eq, Nat.shiftLeft_eq, Nat.shiftLeft_eq, Nat.shiftRight_eq_div_pow]
      have harr : v / 2 ^ 7 * 2 ^ (7 * (decoded + 1)) = 2 ^ (7 * decoded + 7) * (v / 2 ^ 7) := by
        rw [show 7 * (decoded + 1) = 7 * decoded + 7 by omega]
        ring
      rw [harr, lor_two_pow_mul (7 * decoded + 7) (v / 2 ^ 7) (v % 128 * 2 ^ (7 * decoded))
        (by
          have h1 : v % 128 * 2 ^ (7 * decoded) < 2 ^ 7 * 2 ^ (7 * decoded) :=
            (Nat.mul_lt_mul_right (Nat.pos_pow_of_pos _ (by omega))).mpr (by omega)
          rw [← pow_add] at h1
          rw [show 7 * decoded + 7 = 7 + 7 * decoded by omega]
          exact h1)]
      rw [show (2 : Nat) ^ (7 * decoded + 7) = 2 ^ (7 * decoded) * 2 ^ 7 from pow_add 2 _ _]
      rw [Nat.mul_assoc, Nat.mul_comm (v % 128) (2 ^ (7 * decoded))]
      rw [← Nat.mul_add]
      rw [show 2 ^ 7 * (v / 2 ^ 7) + v % 128 = v by omega]
      ring
    · push_neg at h128
      rw [writeVarint64Buf, if_neg (by omega), List.cons_append, List.nil_append]
      simp only [readVarint64Loop]
      rw [if_pos (show decoded < kMaxVarintLength64 by simp only [kMaxVarintLength64]; omega)]
      rw [show v % 256 = v by omega]
      rw [if_pos (small_and_128 v h128)]
      refine congrArg (fun z => some (z, rest)) ?_
      congr 1
      rw [and_127_eq_mod, show v % 128 = v by omega, Nat.shiftLeft_eq]
      apply Nat.mod_eq_of_lt
      have h1 : v * 2 ^ (7 * decoded) < 2 ^ (64 - 7 * decoded) * 2 ^ (7 * decoded) :=
        (Nat.mul_lt_mul_right (Nat.pos_pow_of_pos _ (by omega))).mpr hv
      rw [← pow_add] at h1
      exact lt_of_lt_of_le h1 (Nat.pow_le_pow_right (by omega) (by omega))

/-- IndexInput::readVarint64 decodes every IndexOutput::writeVarint64
encoding of a 64-bit value back to that value (this half of claim C1
holds). -/
theorem varint64_roundtrip (v : Nat) (hv : v < 2 ^ 64) (rest : List Nat) :
    readVarint64List (writeVarint64Buf v ++ rest) = some (v, rest) := by
  have h := readVarint64Loop_writeVarint64Buf v 0 0 rest (by simpa using hv) (by omega)
  simpa [readVarint64List] using h

/-- Witness for the varint64 round-trip at 2^64 − 1. -/
theorem varint64_roundtrip_witness :
    readVarint64List (writeVarint64Buf (2 ^ 64 - 1) ++ []) = some (2 ^ 64 - 1, []) :=
  varint64_roundtrip (2 ^ 64 - 1) (by norm_num) []

theorem readVarint32Loop_writeVarint64Buf :
    ∀ (v decoded ret : Nat) (rest : List Nat),
      v < 2 ^ (32 - 7 * decoded) → decoded ≤ 4 →
      readVarint32Loop ret decoded (writeVarint64Buf v ++ rest) =
        some (ret ||| v <<< (7 * decoded), rest) := by
  intro v
  induction v using Nat.strong_induction_on with
  | _ v ih =>
    intro decoded ret rest hv hd
    by_cases h128 : 128 ≤ v
    · have hd3 : decoded ≤ 3 := by
        rcases Nat.lt_or_ge decoded 4 with h | h
        · omega
        · have h4 : decoded = 4 := by omega
          rw [h4] at hv
          norm_num at hv
          omega
      rw [writeVarint64Buf, if_pos h128, List.cons_append]
      simp only [readVarint32Loop]
      rw [if_pos (show decoded < kMaxVarintLength32 by simp only [kMaxVarintLength32]; omega)]
      rw [if_neg (contByte_and_128 v)]
      have hv7 : v >>> 7 < 2 ^ (32 - 7 * (decoded + 1)) := by
        rw [Nat.shiftRight_eq_div_pow]
        have hexp : 32 - 7 * (decoded + 1) + 7 = 32 - 7 * decoded := by omega
        rw [Nat.div_lt_iff_lt_mul (by norm_num : 0 < (2 : Nat) ^ 7), ← pow_add, hexp]
        exact hv
      have hdec7 : v >>> 7 < v := by
        rw [Nat.shiftRight_eq_div_pow]
        exact Nat.div_lt_self (by omega) (by norm_num)
      rw [ih (v >>> 7) hdec7 (decoded + 1) _ rest hv7 (by omega)]
      refine congrArg (fun z => some (z, rest)) ?_
      rw [contByte_and_127]
      have hlow : (v % 128) <<< (7 * decoded) % 2 ^ 32 = (v % 128) <<< (7 * decoded) := by
        rw [Nat.shiftLeft_eq]
        apply Nat.mod_eq_of_lt
        have h1 : v % 128 * 2 ^ (7 * decoded) < 2 ^ 7 * 2 ^ (7 * decoded) :=
          (Nat.mul_lt_mul_right (Nat.pos_pow_of_pos _ (by omega))).mpr (by omega)
        rw [← pow_add] at h1
        exact lt_of_lt_of_le h1 (Nat.pow_le_pow_right (by omega) (by omega))
      rw [hlow, Nat.lor_assoc]
      congr 1
      rw [Nat.shiftLeft_eq, Nat.shiftLeft_eq, Nat.shiftLeft_eq, Nat.shiftRight_eq_div_pow]
      have harr : v / 2 ^ 7 * 2 ^ (7 * (decoded + 1)) = 2 ^ (7 * decoded + 7) * (v / 2 ^ 7) := by
        rw [show 7 * (decoded + 1) = 7 * decoded + 7 by omega]
        ring
      rw [harr, lor_two_pow_mul (7 * decoded + 7) (v / 2 ^ 7) (v % 128 * 2 ^ (7 * decoded))
        (by
          have h1 : v % 128 * 2 ^ (7 * decoded) < 2 ^ 7 * 2 ^ (7 * decoded) :=
            (Nat.mul_lt_mul_right (Nat.pos_pow_of_pos _ (by omega))).mpr (by omega)
          rw [← pow_add] at h1
          rw [show 7 * decoded + 7 = 7 + 7 * decoded by omega]
          exact h1)]
      rw [show (2 : Nat) ^ (7 * decoded + 7) = 2 ^ (7 * decoded) * 2 ^ 7 from pow_add 2 _ _]
      rw [Nat.mul_assoc, Nat.mul_comm (v % 128) (2 ^ (7 * decoded))]
      rw [← Nat.mul_add]
      rw [show 2 ^ 7 * (v / 2 ^ 7) + v % 128 = v by omega]
      ring
    · push_neg at h128
      rw [writeVarint64Buf, if_neg (by omega), List.cons_append, List.nil_append]
      simp only [readVarint32Loop]
      rw [if_pos (show decoded < kMaxVarintLength32 by simp only [kMaxVarintLength32]; omega)]
      rw [show v % 256 = v by omega]
      rw [if_pos (small_and_128 v h128)]
      refine congrArg (fun z => some (z, rest)) ?_
      congr 1
      rw [and_127_eq_mod, show v % 128 = v by omega, Nat.shiftLeft_eq]
      apply Nat.mod_eq_of_lt
      have h1 : v * 2 ^ (7 * decoded) < 2 ^ (32 - 7 * decoded) * 2 ^ (7 * decoded) :=
        (Nat.mul_lt_mul_right (Nat.pos_pow_of_pos _ (by omega))).mpr hv
      rw [← pow_add] at h1
      exact lt_of_lt_of_le h1 (Nat.pow_le_pow_right (by omega) (by omega))

/-- Outside [2^21, 2^28), IndexOutput::writeVarint32 builds the same
byte buffer as writeVarint64 (the branches emit exactly the unrolled
7-bit groups). -/
theorem writeVarint32Buf_eq_writeVarint64Buf (v : Nat)
    (h : v < 2 ^ 21 ∨ 2 ^ 28 ≤ v ∧ v < 2 ^ 32) :
    writeVarint32Buf v = writeVarint64Buf v := by
  have e14 : v >>> 14 = v >>> 7 >>> 7 := by
    rw [show (14 : Nat) = 7 + 7 from rfl, Nat.shiftRight_add]
  have e21 : v >>> 21 = v >>> 7 >>> 7 >>> 7 := by
    rw [show (21 : Nat) = 7 + 7 + 7 from rfl, Nat.shiftRight_add, Nat.shiftRight_add]
  have e28 : v >>> 28 = v >>> 7 >>> 7 >>> 7 >>> 7 := by
    rw [show (28 : Nat) = 7 + 7 + 7 + 7 from rfl, Nat.shiftRight_add, Nat.shiftRight_add,
      Nat.shiftRight_add]
  have d7 : v >>> 7 = v / 2 ^ 7 := Nat.shiftRight_eq_div_pow v 7
  have d14 : v >>> 7 >>> 7 = v / 2 ^ 14 := by rw [← e14, Nat.shiftRight_eq_div_pow]
  have d21 : v >>> 7 >>> 7 >>> 7 = v / 2 ^ 21 := by rw [← e21, Nat.shiftRight_eq_div_pow]
  have d28 : v >>> 7 >>> 7 >>> 7 >>> 7 = v / 2 ^ 28 := by
    rw [← e28, Nat.shiftRight_eq_div_pow]
  rw [writeVarint32Buf]
  rw [show (1 <<< 7 : Nat) = 128 from rfl, show (1 <<< 14 : Nat) = 16384 from rfl,
    show (1 <<< 21 : Nat) = 2097152 from rfl, show (1 <<< 28 : Nat) = 268435456 from rfl]
  by_cases h1 : v < 128
  · rw [if_pos h1, writeVarint64Buf, if_neg (by omega)]
  · by_cases h2 : v < 16384
    · rw [if_neg h1, if_pos h2]
      rw [writeVarint64Buf, if_pos (by omega)]
      rw [writeVarint64Buf, if_neg (by rw [d7]; omega)]
    · by_cases h3 : v < 2097152
      · rw [if_neg h1, if_neg h2, if_pos h3]
        rw [writeVarint64Buf, if_pos (by omega)]
        rw [writeVarint64Buf, if_pos (by rw [d7]; omega)]
        rw [writeVarint64Buf, if_neg (by rw [d14]; omega)]
        rw [e14]
      · have hv32 : 268435456 ≤ v ∧ v < 4294967296 := by
          rcases h with hlt | hge
          · norm_num at hlt
            omega
          · norm_num at hge
            omega
        rw [if_neg h1, if_neg h2, if_neg h3, if_neg (by omega)]
        rw [writeVarint64Buf, if_pos (by omega)]
        rw [writeVarint64Buf, if_pos (by rw [d7]; omega)]
        rw [writeVarint64Buf, if_pos (by rw [d14]; omega)]
        rw [writeVarint64Buf, if_pos (by rw [d21]; omega)]
        rw [writeVarint64Buf, if_neg (by rw [d28]; omega)]
        rw [e14, e21, e28]

/-- IndexInput::readVarint32 decodes every IndexOutput::writeVarint32
encoding back to the original value for all 32-bit values outside the
broken range [2^21, 2^28) (the rest of the varint32 half of claim
C1). -/
theorem varint32_roundtrip_good_ranges (v : Nat) (rest : List Nat)
    (h : v < 2 ^ 21 ∨ 2 ^ 28 ≤ v ∧ v < 2 ^ 32) :
    readVarint32List (writeVarint32Buf v ++ rest) = some (v, rest) := by
  rw [writeVarint32Buf_eq_writeVarint64Buf v h]
  have hv : v < 2 ^ 32 := by
    rcases h with h | h
    · omega
    · exact h.2
  have hg := readVarint32Loop_writeVarint64Buf v 0 0 rest (by simpa using hv) (by omega)
  simpa [readVarint32List] using hg

/-- Witness for the good-range varint32 round-trip at 2^32 − 1. -/
theorem varint32_roundtrip_good_ranges_witness :
    readVarint32List (writeVarint32Buf (2 ^ 32 - 1) ++ []) = some (2 ^ 32 - 1, []) :=
  varint32_roundtrip_good_ranges (2 ^ 32 - 1) [] (by norm_num)

/-- The little-endian fixed 32-bit codec round-trips every 32-bit value
(this half of claim C1 holds). -/
theorem fixed32_roundtrip (v : Nat) (hv : v < 2 ^ 32) (rest : List Nat) :
    readInt32List (writeInt32Buf v ++ rest) = some (v, rest) := by
  simp only [writeInt32Buf, List.cons_append, List.nil_append, readInt32List]
  refine congrArg (fun z => some (z, rest)) ?_
  rw [Nat.shiftLeft_eq, Nat.shiftLeft_eq, Nat.shiftLeft_eq,
    Nat.shiftRight_eq_div_pow, Nat.shiftRight_eq_div_pow, Nat.shiftRight_eq_div_pow]
  rw [Nat.mul_comm (v / 2 ^ 8 % 256) (2 ^ 8), Nat.mul_comm (v / 2 ^ 16 % 256) (2 ^ 16),
    Nat.mul_comm (v / 2 ^ 24 % 256) (2 ^ 24)]
  rw [lor_two_pow_mul 8 (v / 2 ^ 8 % 256) (v % 256) (by omega)]
  rw [lor_two_pow_mul 16 (v / 2 ^ 16 % 256) _ (by omega)]
  rw [lor_two_pow_mul 24 (v / 2 ^ 24 % 256) _ (by omega)]
  omega

/-- Witness for the fixed 32-bit round-trip at 2^32 − 1. -/
theorem fixed32_roundtrip_witness :
    readInt32List (writeInt32Buf (2 ^ 32 - 1) ++ []) = some (2 ^ 32 - 1, []) :=
  fixed32_roundtrip (2 ^ 32 - 1) (by norm_num) []

/-- The little-endian fixed 64-bit codec round-trips every 64-bit value
(this half of claim C1 holds). -/
theorem fixed64_roundtrip (v : Nat) (hv : v < 2 ^ 64) (rest : List Nat) :
    readInt64List (writeInt64Buf v ++ rest) = some (v, rest) := by
  simp only [writeInt64Buf, List.cons_append, List.nil_append, readInt64List]
  refine congrArg (fun z => some (z, rest)) ?_
  rw [Nat.shiftLeft_eq, Nat.shiftLeft_eq, Nat.shiftLeft_eq, Nat.shiftLeft_eq,
    Nat.shiftLeft_eq, Nat.shiftLeft_eq, Nat.shiftLeft_eq,
    Nat.shiftRight_eq_div_pow, Nat.shiftRight_eq_div_pow, Nat.shiftRight_eq_div_pow,
    Nat.shiftRight_eq_div_pow, Nat.shiftRight_eq_div_pow, Nat.shiftRight_eq_div_pow,
    Nat.shiftRight_eq_div_pow]
  rw [Nat.mul_comm (v / 2 ^ 8 % 256) (2 ^ 8), Nat.mul_comm (v / 2 ^ 16 % 256) (2 ^ 16),
    Nat.mul_comm (v / 2 ^ 24 % 256) (2 ^ 24), Nat.mul_comm (v / 2 ^ 32 % 256) (2 ^ 32),
    Nat.mul_comm (v / 2 ^ 40 % 256) (2 ^ 40), Nat.mul_comm (v / 2 ^ 48 % 256) (2 ^ 48),
    Nat.mul_comm (v / 2 ^ 56 % 256) (2 ^ 56)]
  rw [lor_two_pow_mul 8 (v / 2 ^ 8 % 256) (v % 256) (by omega)]
  rw [lor_two_pow_mul 16 (v / 2 ^ 16 % 256) _ (by omega)]
  rw [lor_two_pow_mul 24 (v / 2 ^ 24 % 256) _ (by omega)]
  rw [lor_two_pow_mul 32 (v / 2 ^ 32 % 256) _ (by omega)]
  rw [lor_two_pow_mul 40 (v / 2 ^ 40 % 256) _ (by omega)]
  rw [lor_two_pow_mul 48 (v / 2 ^ 48 % 256) _ (by omega)]
  rw [lor_two_pow_mul 56 (v / 2 ^ 56 % 256) _ (by omega)]
  omega

/-- Witness for the fixed 64-bit round-trip at 2^64 − 1. -/
theorem fixed64_roundtrip_witness :
    readInt64List (writeInt64Buf (2 ^ 64 - 1) ++ []) = some (2 ^ 64 - 1, []) :=
  fixed64_roundtrip (2 ^ 64 - 1) (by norm_num) []

/-- The varint32 encoded lengths as the code produces them: the
[2^21, 2^28) range yields 3 bytes where the documented boundary table
requires 4; all other ranges match the table. -/
theorem writeVarint32Buf_length_table (v : Nat) :
    (writeVarint32Buf v).length =
      if v < 1 <<< 7 then 1
      else if v < 1 <<< 14 then 2
      else if v < 1 <<< 21 then 3
      else if v < 1 <<< 28 then 3
      else 5 := by
  rw [writeVarint32Buf]
  split_ifs <;> rfl

theorem writeVarint64Buf_length_le :
    ∀ (n v : Nat), v < 2 ^ (7 * n + 7) → (writeVarint64Buf v).length ≤ n + 1 := by
  intro n
  induction n with
  | zero =>
    intro v hv
    rw [writeVarint64Buf, if_neg (by omega)]
    simp
  | succ m ih =>
    intro v hv
    by_cases h128 : 128 ≤ v
    · rw [writeVarint64Buf, if_pos h128]
      simp only [List.length_cons]
      have hv7 : v >>> 7 < 2 ^ (7 * m + 7) := by
        rw [Nat.shiftRight_eq_div_pow]
        rw [Nat.div_lt_iff_lt_mul (by norm_num : 0 < (2 : Nat) ^ 7), ← pow_add]
        rw [show 7 * m + 7 + 7 = 7 * (m + 1) + 7 by omega]
        exact hv
      have := ih (v >>> 7) hv7
      omega
    · rw [writeVarint64Buf, if_neg h128]
      simp

/-- Any 64-bit value's varint encoding takes at most the documented 10
bytes. -/
theorem writeVarint64Buf_length_le_ten (v : Nat) (hv : v < 2 ^ 64) :
    (writeVarint64Buf v).length ≤ 10 :=
  writeVarint64Buf_length_le 9 v (lt_of_lt_of_le hv (by norm_num))

/-- Witness for the varint64 length bound at 2^64 − 1. -/
theorem writeVarint64Buf_length_le_ten_witness :
    (writeVarint64Buf (2 ^ 64 - 1)).length ≤ 10 :=
  writeVarint64Buf_length_le_ten (2 ^ 64 - 1) (by norm_num)

/-! ## Claim C1 -/

/-- C1: the round-trip claim fails on the varint32 codec.  The
`num < (1 << 28)` branch of IndexOutput::writeVarint32 omits the
`num | B` byte, so 2^21 is encoded as the three bytes [128, 128, 1]
(the documented boundary table requires four bytes here), and decoding
that encoding yields 2^14, not 2^21. -/
theorem c1_varint32_roundtrip_fails :
    writeVarint32Buf (2 ^ 21) = [128, 128, 1] ∧
    (writeVarint32Buf (2 ^ 21)).length = 3 ∧
    readVarint32List (writeVarint32Buf (2 ^ 21)) = some (2 ^ 14, []) ∧
    ¬ (2 ^ 14 : Nat) = 2 ^ 21 := by
  decide

/-! ## Claim C3 -/

/-- C3 counterexample: the claim includes p = N, but
RAMFileIndexInput::seek asserts seek_pos < file->length, so seeking a
one-byte file to position 1 is a fatal assertion failure (none), not a
successful seek followed by an empty read. -/
theorem c3_seek_to_length_is_fatal :
    ((mkInput (writeFileOf zeroGarbage [7])).bind fun r => r.seek 1) = none := by
  rfl

/-- C3 (amended): for every file written sequentially at positions
[0, N) and committed, and every p < N, seeking the reader to p and
reading N − p bytes forward reproduces exactly the bytes [p, N); the
p = N case of the original claim instead trips the fatal assertion in
RAMFileIndexInput::seek. -/
theorem c3_seek_then_read (g : Nat → Nat → Nat) (content : List Nat) (p : Nat)
    (hb : ∀ b ∈ content, b < 256) (hp : p < content.length) :
    ∃ r r2, mkInput (writeFileOf g content) = some r ∧ r.seek p = some r2 ∧
      (r2.read (content.length - p)).1 = content.drop p := by
  have hne : content ≠ [] := by
    intro h
    rw [h] at hp
    simp at hp
  obtain ⟨hlen, hbytes⟩ := writeFileOf_spec g content hne
  refine ⟨{ file := writeFileOf g content
            current_block := 0
            hasBuf := false
            curOff := 0
            sentinelOff := 0
            pos := 0 },
    { file := writeFileOf g content
      current_block := p / kBlockSize
      hasBuf := true
      curOff := p % kBlockSize
      sentinelOff := kBlockSize
      pos := 0 }, ?_, ?_, ?_⟩
  · simp only [mkInput, hlen]
    rw [if_neg (by omega)]
  · have hlast : ¬ p / kBlockSize = (writeFileOf g content).last_block := by
      simp only [RAMFile.last_block, hlen, kBlockSize]
      omega
    simp only [RState.seek, hlen]
    rw [if_pos hp, if_neg hlast]
  · have hRPos : RPos
        { file := writeFileOf g content
          current_block := p / kBlockSize
          hasBuf := true
          curOff := p % kBlockSize
          sentinelOff := kBlockSize
          pos := 0 }
        (writeFileOf g content) p := by
      refine ⟨rfl, Or.inr ⟨rfl, ?_, ?_, rfl⟩⟩
      · show kBlockSize * (p / kBlockSize) + p % kBlockSize = p
        simp only [kBlockSize]
        omega
      · show p % kBlockSize ≤ kBlockSize
        simp only [kBlockSize]
        omega
    have hread := read_spec _ _ p (content.length - p) hRPos (by omega)
    rw [hread.1, drop_eq_range_map content 0 p (Nat.le_of_lt hp)]
    apply List.map_congr_left
    intro j hj
    simp only [List.mem_range] at hj
    have hpj : p + j < content.length := by omega
    rw [hbytes (p + j) hpj]
    have hmem : content.getD (p + j) 0 < 256 := by
      rw [List.getD_eq_getElem _ _ hpj]
      exact hb _ (List.getElem_mem hpj)
    omega

/-- Witness for the amended C3 at a concrete input: the three-byte file
[10, 20, 30], seek to 1, read 2 bytes. -/
theorem c3_seek_then_read_witness :
    ∃ r r2, mkInput (writeFileOf zeroGarbage [10, 20, 30]) = some r ∧ r.seek 1 = some r2 ∧
      (r2.read (([10, 20, 30] : List Nat).length - 1)).1 = ([10, 20, 30] : List Nat).drop 1 := by
  have := c3_seek_then_read zeroGarbage [10, 20, 30] 1 (by decide) (by decide)
  simpa using this

/-- Unfolding the scenario's bind chain against abstract intermediate
reader states, so the chain can be closed by pure rewriting. -/
theorem c2Run_eq (g : Nat → Nat → Nat) (r0 r8 r14 r16 : RState)
    (v1 v3 : Nat) (s : List Nat) (e : Bool)
    (hmk : mkInput (c2File g) = some r0)
    (h1 : r0.readInt64 = some (v1, r8))
    (h2 : r8.readString = some (s, r14))
    (h3 : r14.readVarint32 = some (v3, r16))
    (h4 : r16.eof.1 = e) :
    c2Run g = some (v1, s, v3, e) := by
  simp only [c2Run, hmk, Option.some_bind, h1, h2, h3, h4]

/-! ## Claim C2 -/

/-- C2: in the spec's example scenario the three reads return the
written values, but eof() afterwards is false, not true as the spec
claims: the reader's last_block is computed one past the true last data
block, so after the 16 real bytes the whole 4096-byte block still counts
as pending data.  Proved for an arbitrary garbage source, so the result
does not depend on the contents of uninitialized block memory. -/
theorem c2_example_scenario (g : Nat → Nat → Nat) :
    c2Run g = some (2 ^ 64 - 1, helloBytes, 300, false) := by
  have hW0 : WInv (freshWriter.write g (writeInt64Buf (2 ^ 64 - 1)))
      (writeInt64Buf (2 ^ 64 - 1)) := write_fresh_WInv g _ (by decide)
  have hW1 := write_WInv g _ _ (writeVarint32Buf (helloBytes.length % 2 ^ 32)) hW0
  have hW2 := write_WInv g _ _ helloBytes hW1
  have hW3 := write_WInv g _ _ (writeVarint32Buf 300) hW2
  have hfile := close_spec _ _ hW3
  have hlen : (c2File g).length = 16 := by
    have h1 : (c2File g).length = (((writeInt64Buf (2 ^ 64 - 1) ++
        writeVarint32Buf (helloBytes.length % 2 ^ 32)) ++ helloBytes) ++
        writeVarint32Buf 300).length := hfile.1
    rw [h1]
    decide
  have hbyte : ∀ i, i < 16 → (c2File g).byteAt i =
      ([255, 255, 255, 255, 255, 255, 255, 255, 5, 104, 101, 108, 108, 111, 172, 2] :
        List Nat).getD i 0 := by
    intro i hi
    have h2 : (c2File g).byteAt i = (((writeInt64Buf (2 ^ 64 - 1) ++
        writeVarint32Buf (helloBytes.length % 2 ^ 32)) ++ helloBytes) ++
        writeVarint32Buf 300).getD i 0 % 256 := hfile.2 i (by
      have : (((writeInt64Buf (2 ^ 64 - 1) ++
          writeVarint32Buf (helloBytes.length % 2 ^ 32)) ++ helloBytes) ++
          writeVarint32Buf 300).length = 16 := by decide
      omega)
    rw [h2]
    interval_cases i <;> rfl
  have hmk : mkInput (c2File g) = some
      { file := c2File g
        current_block := 0
        hasBuf := false
        curOff := 0
        sentinelOff := 0
        pos := 0 } := by
    simp only [mkInput, hlen]
    rw [if_neg (by omega)]
  have hR0 : RPos
      { file := c2File g
        current_block := 0
        hasBuf := false
        curOff := 0
        sentinelOff := 0
        pos := 0 } (c2File g) 0 := ⟨rfl, Or.inl ⟨rfl, rfl, rfl, rfl, rfl⟩⟩
  have hrd8 := read_spec _ (c2File g) 0 8 hR0 (by rw [hlen]; omega)
  have hlist8 : ((RState.read
      { file := c2File g
        current_block := 0
        hasBuf := false
        curOff := 0
        sentinelOff := 0
        pos := 0 } 8).1) = [255, 255, 255, 255, 255, 255, 255, 255] := by
    rw [hrd8.1]
    rw [show (List.range 8).map (fun j => (c2File g).byteAt (0 + j)) =
        [(c2File g).byteAt 0, (c2File g).byteAt 1, (c2File g).byteAt 2, (c2File g).byteAt 3,
          (c2File g).byteAt 4, (c2File g).byteAt 5, (c2File g).byteAt 6, (c2File g).byteAt 7]
      from rfl]
    rw [hbyte 0 (by omega), hbyte 1 (by omega), hbyte 2 (by omega), hbyte 3 (by omega),
      hbyte 4 (by omega), hbyte 5 (by omega), hbyte 6 (by omega), hbyte 7 (by omega)]
    rfl
  have hq8 : (RState.readInt64
      { file := c2File g
        current_block := 0
        hasBuf := false
        curOff := 0
        sentinelOff := 0
        pos := 0 }) = some (2 ^ 64 - 1, (RState.read
      { file := c2File g
        current_block := 0
        hasBuf := false
        curOff := 0
        sentinelOff := 0
        pos := 0 } 8).2) := by
    simp only [RState.readInt64, hlist8]
    rw [if_neg (by decide)]
    simp +decide
  have hR8 : RPos (RState.read
      { file := c2File g
        current_block := 0
        hasBuf := false
        curOff := 0
        sentinelOff := 0
        pos := 0 } 8).2 (c2File g) 8 := by
    have := hrd8.2
    simpa using this
  obtain ⟨r9, hrb8, hR9⟩ := readByte_spec _ _ 8 hR8 (by rw [hlen]; omega)
  rw [show (c2File g).byteAt 8 = 5 from by rw [hbyte 8 (by omega)]; rfl] at hrb8
  obtain ⟨r10, hrb9, hR10⟩ := readByte_spec _ _ 9 hR9 (by rw [hlen]; omega)
  rw [show (c2File g).byteAt 9 = 104 from by rw [hbyte 9 (by omega)]; rfl] at hrb9
  obtain ⟨r11, hrb10, hR11⟩ := readByte_spec _ _ 10 hR10 (by rw [hlen]; omega)
  rw [show (c2File g).byteAt 10 = 101 from by rw [hbyte 10 (by omega)]; rfl] at hrb10
  obtain ⟨r12, hrb11, hR12⟩ := readByte_spec _ _ 11 hR11 (by rw [hlen]; omega)
  rw [show (c2File g).byteAt 11 = 108 from by rw [hbyte 11 (by omega)]; rfl] at hrb11
  obtain ⟨r13, hrb12, hR13⟩ := readByte_spec _ _ 12 hR12 (by rw [hlen]; omega)
  rw [show (c2File g).byteAt 12 = 108 from by rw [hbyte 12 (by omega)]; rfl] at hrb12
  obtain ⟨r14, hrb13, hR14⟩ := readByte_spec _ _ 13 hR13 (by rw [hlen]; omega)
  rw [show (c2File g).byteAt 13 = 111 from by rw [hbyte 13 (by omega)]; rfl] at hrb13
  obtain ⟨r15, hrb14, hR15⟩ := readByte_spec _ _ 14 hR14 (by rw [hlen]; omega)
  rw [show (c2File g).byteAt 14 = 172 from by rw [hbyte 14 (by omega)]; rfl] at hrb14
  obtain ⟨r16, hrb15, hR16⟩ := readByte_spec _ _ 15 hR15 (by rw [hlen]; omega)
  rw [show (c2File g).byteAt 15 = 2 from by rw [hbyte 15 (by omega)]; rfl] at hrb15
  have hv5 : (RState.readVarint32 (RState.read
      { file := c2File g
        current_block := 0
        hasBuf := false
        curOff := 0
        sentinelOff := 0
        pos := 0 } 8).2) = some (5, r9) := by
    simp +decide [RState.readVarint32, kMaxVarintLength32, RState.readVarint32Loop, hrb8]
  have hbytes5 : RState.readBytesN 5 r9 = some (helloBytes, r14) := by
    simp [RState.readBytesN, hrb9, hrb10, hrb11, hrb12, hrb13, helloBytes]
  have hstr : (RState.readString (RState.read
      { file := c2File g
        current_block := 0
        hasBuf := false
        curOff := 0
        sentinelOff := 0
        pos := 0 } 8).2) = some (helloBytes, r14) := by
    simp [RState.readString, hv5, hbytes5]
  have hv300 : r14.readVarint32 = some (300, r16) := by
    simp +decide [RState.readVarint32, kMaxVarintLength32, RState.readVarint32Loop,
      hrb14, hrb15]
  have heof : r16.eof.1 = false := by
    obtain ⟨hfile16, hc⟩ := hR16
    rcases hc with ⟨_, _, _, _, habs⟩ | ⟨hb16, hdec16, hco16, hs16⟩
    · exact absurd habs (by omega)
    · have hpend : r16.hasPendingData = true := by
        simp only [RState.hasPendingData, RState.readable, hs16, decide_eq_true_eq]
        simp only [kBlockSize] at hdec16 ⊢
        omega
      simp [RState.eof, hpend]
  exact c2Run_eq g _ _ _ _ _ _ _ _ hmk hq8 hstr hv300 heof

/-- Witness for C2 at the concrete all-zero garbage source. -/
theorem c2_example_scenario_witness :
    c2Run zeroGarbage = some (2 ^ 64 - 1, helloBytes, 300, false) :=
  c2_example_scenario zeroGarbage

/-! ## Claim C4 -/

/-- C4: deleteSegment over a directory in which a committed file matches
the prefix trips the loop's assertion (it requires pair.second ==
&dummy_file) and aborts (none) instead of removing the entry, so
"removes exactly the matching entries, leaves the rest unchanged and
never throws" fails.  (The source additionally erases from the
unordered_map inside a range-for over it, invalidating the loop
iterator — undefined behaviour the embedding does not even need in
order to refute the claim.) -/
theorem c4_deleteSegment_committed_fatal :
    RAMDirectory.deleteSegment
      { files := [("seg1_a", TableEntry.committed 0)]
        heap := [(0, { file := dummyRAMFile, refs := 1 })]
        nextId := 1
        dummyRefs := 0 } "seg1_" = none := by
  rfl

/-! ## Claim C5 -/

/-- C5: createOutput on an occupied name (placeholder or committed)
throws FileAlreadyExists with the table left untouched; on an absent
name it reserves the name as a placeholder and returns a writer bound
to a fresh empty file (no blocks, length 0, no buffer yet). -/
theorem c5_createOutput (d : DirState) (fname : String) :
    (∀ e, findEntry d.files fname = some e →
      RAMDirectory.createOutput d fname = some (.error .FileAlreadyExistsException, d)) ∧
    (findEntry d.files fname = none →
      RAMDirectory.createOutput d fname = some (.ok freshWriter,
        { d with files := insertEntry d.files fname .placeholder }) ∧
      freshWriter.file.blocks = [] ∧ freshWriter.file.length = 0 ∧
      freshWriter.hasBuf = false) := by
  constructor
  · intro e he
    simp [RAMDirectory.createOutput, he]
  · intro he
    exact ⟨by simp [RAMDirectory.createOutput, he], rfl, rfl, rfl⟩

/-- Witness for C5 at concrete inputs: an occupied single-entry
directory and the empty directory. -/
theorem c5_createOutput_witness :
    RAMDirectory.createOutput
      { files := [("a", TableEntry.placeholder)]
        heap := []
        nextId := 0
        dummyRefs := 0 } "a" =
      some (.error .FileAlreadyExistsException,
        { files := [("a", TableEntry.placeholder)]
          heap := []
          nextId := 0
          dummyRefs := 0 }) ∧
    RAMDirectory.createOutput emptyDir "f" = some (.ok freshWriter,
      { emptyDir with files := insertEntry emptyDir.files "f" .placeholder }) :=
  ⟨(c5_createOutput
      { files := [("a", TableEntry.placeholder)]
        heap := []
        nextId := 0
        dummyRefs := 0 } "a").1 .placeholder rfl,
    ((c5_createOutput emptyDir "f").2 rfl).1⟩

/-! ## Claim C6 -/

/-- C6: openInput, fileLength and deleteFile on an absent name each
throw FileNotFound and leave the directory state unchanged. -/
theorem c6_absent_name_ops (d : DirState) (fname : String)
    (h : findEntry d.files fname = none) :
    RAMDirectory.openInput d fname = some (.error .FileNotFoundException, d) ∧
    RAMDirectory.fileLength d fname = some (.error .FileNotFoundException, d) ∧
    RAMDirectory.deleteFile d fname = some (.error .FileNotFoundException, d) :=
  ⟨by simp [RAMDirectory.openInput, h], by simp [RAMDirectory.fileLength, h],
    by simp [RAMDirectory.deleteFile, h]⟩

/-- Witness for C6: the empty directory and the name "x". -/
theorem c6_absent_name_ops_witness :
    RAMDirectory.openInput emptyDir "x" = some (.error .FileNotFoundException, emptyDir) ∧
    RAMDirectory.fileLength emptyDir "x" = some (.error .FileNotFoundException, emptyDir) ∧
    RAMDirectory.deleteFile emptyDir "x" = some (.error .FileNotFoundException, emptyDir) :=
  c6_absent_name_ops emptyDir "x" rfl

/-! ## Claim C7 -/

theorem findFile_setFile (h : List (Nat × FileObj)) (id : Nat) (fo v : FileObj)
    (hfind : findFile h id = some fo) : findFile (setFile h id v) id = some v := by
  induction h with
  | nil => simp [findFile] at hfind
  | cons p rest ih =>
    obtain ⟨k, x⟩ := p
    by_cases hk : k = id
    · simp [findFile, setFile, hk]
    · simp only [findFile, setFile, if_neg hk] at hfind ⊢
      exact ih hfind

/-- C7: deleting a committed file removes the table entry and
decrements the reference count, deallocating the storage exactly when
the count reaches 0; when at least one reader is still open
(refs ≥ 2) the heap keeps the object with identical contents, so the
reader keeps reading the same data; a reader close (unrefReader)
decrements symmetrically and frees exactly at zero — deallocation
therefore requires deleteFile plus the close of every reader, in either
order. -/
theorem c7_refcount_liveness (d : DirState) (fname : String) (id : Nat) (fo : FileObj)
    (he : findEntry d.files fname = some (.committed id))
    (hf : findFile d.heap id = some fo) :
    (RAMDirectory.deleteFile d fname = some (.ok (),
      if fo.refs - 1 = 0 then
        { d with files := eraseEntry d.files fname, heap := eraseFile d.heap id }
      else
        { d with
          files := eraseEntry d.files fname
          heap := setFile d.heap id { fo with refs := fo.refs - 1 } })) ∧
    (RAMDirectory.unrefReader d id =
      if fo.refs - 1 = 0 then { d with heap := eraseFile d.heap id }
      else { d with heap := setFile d.heap id { fo with refs := fo.refs - 1 } }) ∧
    (2 ≤ fo.refs →
      findFile (setFile d.heap id { fo with refs := fo.refs - 1 }) id =
        some { fo with refs := fo.refs - 1 }) := by
  refine ⟨?_, ?_, fun _ => findFile_setFile d.heap id fo _ hf⟩
  · simp [RAMDirectory.deleteFile, he, hf]
  · simp [RAMDirectory.unrefReader, hf]

/-- Witness for C7: a committed file with reference count 3 (one for
the table, two readers); deleteFile keeps the storage with count 2. -/
theorem c7_refcount_liveness_witness :
    RAMDirectory.deleteFile
      { files := [("f", TableEntry.committed 0)]
        heap := [(0, { file := dummyRAMFile, refs := 3 })]
        nextId := 1
        dummyRefs := 0 } "f" = some (.ok (),
      { files := []
        heap := [(0, { file := dummyRAMFile, refs := 2 })]
        nextId := 1
        dummyRefs := 0 }) := by
  have := (c7_refcount_liveness
    { files := [("f", TableEntry.committed 0)]
      heap := [(0, { file := dummyRAMFile, refs := 3 })]
      nextId := 1
      dummyRefs := 0 } "f" 0 { file := dummyRAMFile, refs := 3 } rfl rfl).1
  rw [if_neg (by decide)] at this
  exact this

/-! ## Claim C8 -/

/-- C8: obtainLock is non-blocking and mutually exclusive — on an
occupied name it immediately returns no handle with the table
unchanged; on an absent name it reserves the name and returns a handle;
a second obtainLock before release gets no handle; releasing the handle
(its destruction) removes the entry and restores the original state,
after which obtainLock succeeds again by the first part. -/
theorem c8_obtainLock (d : DirState) (fname : String) :
    (∀ e, findEntry d.files fname = some e →
      RAMDirectory.obtainLock d fname = (none, d)) ∧
    (findEntry d.files fname = none →
      RAMDirectory.obtainLock d fname =
        (some fname, { d with files := insertEntry d.files fname .placeholder }) ∧
      RAMDirectory.obtainLock
        { d with files := insertEntry d.files fname .placeholder } fname =
        (none, { d with files := insertEntry d.files fname .placeholder }) ∧
      RAMDirectory.releaseLock
        { d with files := insertEntry d.files fname .placeholder } fname = some d) := by
  constructor
  · intro e he
    simp [RAMDirectory.obtainLock, he]
  · intro he
    have hfind2 : findEntry ((fname, TableEntry.placeholder) :: d.files) fname =
        some .placeholder := by
      simp [findEntry]
    refine ⟨by simp [RAMDirectory.obtainLock, he], ?_, ?_⟩
    · simp only [RAMDirectory.obtainLock, insertEntry]
      rw [hfind2]
    · simp only [RAMDirectory.releaseLock, insertEntry]
      rw [hfind2]
      simp [eraseEntry]

/-- Witness for C8: the empty directory and the name "lock". -/
theorem c8_obtainLock_witness :
    RAMDirectory.obtainLock emptyDir "lock" =
      (some "lock", { emptyDir with files := insertEntry emptyDir.files "lock" .placeholder }) ∧
    RAMDirectory.obtainLock
      { emptyDir with files := insertEntry emptyDir.files "lock" .placeholder } "lock" =
      (none, { emptyDir with files := insertEntry emptyDir.files "lock" .placeholder }) ∧
    RAMDirectory.releaseLock
      { emptyDir with files := insertEntry emptyDir.files "lock" .placeholder } "lock" =
      some emptyDir :=
  (c8_obtainLock emptyDir "lock").2 rfl

/-! ## Claim C9 -/

/-- C9: fileLength on a name in placeholder state does not throw
FileNotFound — the slot holds the shared dummy_file, so it returns
its length, 0. -/
theorem c9_fileLength_placeholder (d : DirState) (fname : String)
    (h : findEntry d.files fname = some .placeholder) :
    RAMDirectory.fileLength d fname = some (.ok 0, d) ∧ dummyRAMFile.length = 0 :=
  ⟨by simp [RAMDirectory.fileLength, h, dummyRAMFile], rfl⟩

/-- Witness for C9: a directory holding one lock/output placeholder. -/
theorem c9_fileLength_placeholder_witness :
    RAMDirectory.fileLength
      { files := [("w", TableEntry.placeholder)]
        heap := []
        nextId := 0
        dummyRefs := 0 } "w" = some (.ok 0,
      { files := [("w", TableEntry.placeholder)]
        heap := []
        nextId := 0
        dummyRefs := 0 }) ∧ dummyRAMFile.length = 0 :=
  c9_fileLength_placeholder
    { files := [("w", TableEntry.placeholder)]
      heap := []
      nextId := 0
      dummyRefs := 0 } "w" rfl

/-! ## Claim C10 -/

/-- C10: create "f", write nothing, close — the commit installs a
length-0 file (fileLength reports 0) — then openInput trips the fatal
assertion in RAMFileIndexInput's constructor (none) instead of
returning a reader that immediately reports eof. -/
theorem c10_open_empty_file_fatal :
    RAMDirectory.createOutput emptyDir "f" = some (.ok freshWriter,
      { files := [("f", TableEntry.placeholder)]
        heap := []
        nextId := 0
        dummyRefs := 0 }) ∧
    RAMDirectory.commit
      { files := [("f", TableEntry.placeholder)]
        heap := []
        nextId := 0
        dummyRefs := 0 } "f" freshWriter = some
      { files := [("f", TableEntry.committed 0)]
        heap := [(0, { file := { blocks := [], length := 0 }, refs := 1 })]
        nextId := 1
        dummyRefs := 0 } ∧
    RAMDirectory.fileLength
      { files := [("f", TableEntry.committed 0)]
        heap := [(0, { file := { blocks := [], length := 0 }, refs := 1 })]
        nextId := 1
        dummyRefs := 0 } "f" = some (.ok 0,
      { files := [("f", TableEntry.committed 0)]
        heap := [(0, { file := { blocks := [], length := 0 }, refs := 1 })]
        nextId := 1
        dummyRefs := 0 }) ∧
    RAMDirectory.openInput
      { files := [("f", TableEntry.committed 0)]
        heap := [(0, { file := { blocks := [], length := 0 }, refs := 1 })]
        nextId := 1
        dummyRefs := 0 } "f" = none :=
  ⟨rfl, rfl, rfl, rfl⟩

end Lucanthrope
